import Mathlib

/-!
# SNMP to MQTT bridge (`main.go`)

A shallow embedding of the two decoders (`parsePfsenseSnmp`, `parseAvtechData`),
of `publish` and of the polling worker `snmpWorker`, together with the parts of
the libraries they call: `gosnmp.ToBigInt`, `strconv.ParseInt`, the decimal
text of a `big.Int`, and the string encoding of `encoding/json`.

Conventions.
* A Go `string` or `[]byte` is the list of its bytes, each a natural number
  below 256. Machine integers are `Int`/`Nat` with explicit wrapping where a
  conversion is written in the code.
* A run-time panic is the `error` side of `Except Panic`.
* Log output is left out; the panics that the logging code can raise are kept.
* The answers of the outside world (broker, SNMP agent) are read from an
  environment record, and the calls made to it are recorded as events.
-/

namespace SnmpMqtt

deriving instance DecidableEq for Except

/-- Bytes of a Go string literal that is written in ASCII. -/
def ascii (s : String) : List Nat := s.toList.map Char.toNat

/-! ## Values handed over by gosnmp -/

/-- A non-nil Go `error`. -/
structure GoError where
  msg : String
deriving DecidableEq, Repr

/-- The run-time panics this program can raise. -/
inductive Panic where
  /-- A field read through a nil pointer. -/
  | nilDereference
  /-- The index expression `xs[index]` with `len(xs) = length ≤ index`. -/
  | indexOutOfRange (index length : Nat)
  /-- A failed `x.(T)`. -/
  | typeAssertion
  /-- An explicit `panic(e)`. -/
  | raised (e : GoError)
deriving DecidableEq, Repr

/-- Dynamic type and content of `SnmpPDU.Value`, an `interface{}`. The integer
constructors carry the number a variable of that Go type holds (`int` and
`uint` are 64 bits wide). -/
inductive Value where
  | nil
  | bytes (b : List Nat)
  | string (s : List Nat)
  | int (i : Int)
  | int8 (i : Int)
  | int16 (i : Int)
  | int32 (i : Int)
  | int64 (i : Int)
  | uint (u : Nat)
  | uint8 (u : Nat)
  | uint16 (u : Nat)
  | uint32 (u : Nat)
  | uint64 (u : Nat)
  /-- Any other dynamic type (`float32`, `float64`, `bool`, ...). -/
  | other
deriving DecidableEq, Repr

/-- The type `gosnmp.Asn1BER`, a byte. -/
abbrev Asn1BER := Nat

/-- The constant `gosnmp.Integer`. -/
def Integer : Asn1BER := 0x02

/-- The constant `gosnmp.OctetString`. -/
def OctetString : Asn1BER := 0x04

/-- The struct `gosnmp.SnmpPDU`; `Type` is spelled `Typ`. -/
structure SnmpPDU where
  Name : List Nat
  Typ : Asn1BER
  Value : Value
deriving DecidableEq, Repr

/-- The struct `gosnmp.SnmpPacket`, cut down to the one field the program reads. -/
structure SnmpPacket where
  Variables : List SnmpPDU
deriving DecidableEq, Repr

/-- Reading through a pointer: `p.f` panics on a nil `p`. -/
def deref {α : Type} (p : Option α) : Except Panic α :=
  match p with
  | some a => .ok a
  | none => .error .nilDereference

/-- The index expression `xs[i]`. -/
def index {α : Type} (xs : List α) (i : Nat) : Except Panic α :=
  match xs[i]? with
  | some a => .ok a
  | none => .error (.indexOutOfRange i xs.length)

/-- The type assertion `v.([]byte)`. -/
def assertBytes : Value → Except Panic (List Nat)
  | .bytes b => .ok b
  | _ => .error .typeAssertion

/-! ## `strconv.ParseInt` and `gosnmp.ToBigInt` -/

/-- The conversion `int64(x)`: the two's complement reading of the low 64 bits. -/
def toInt64 (i : Int) : Int := (i + 2 ^ 63) % 2 ^ 64 - 2 ^ 63

/-- Whether a byte is one of `'0'` .. `'9'`. -/
def isDigit (c : Nat) : Bool := 0x30 ≤ c && c ≤ 0x39

/-- Value of a run of decimal digits, most significant first, on top of `acc`. -/
def digitsValue (acc : Nat) : List Nat → Nat
  | [] => acc
  | c :: rest => digitsValue (acc * 10 + (c - 0x30)) rest

/-- The call `strconv.ParseInt(s, 10, 64)`: `none` stands for a non-nil error
(empty input, a byte that is no decimal digit, or a value out of range). -/
def parseInt (s : List Nat) : Option Int :=
  match s with
  | [] => none
  | c :: rest =>
    let neg := c == 0x2D
    let digits := if c == 0x2B || c == 0x2D then rest else s
    if digits.isEmpty || !digits.all isDigit then none
    else
      let un := digitsValue 0 digits
      if !neg && un ≥ 2 ^ 63 then none
      else if neg && un > 2 ^ 63 then none
      else some (if neg then -(un : Int) else (un : Int))

/-- The function `gosnmp.ToBigInt`: every integer type but `uint64` goes
through `int64`, a `string` through `strconv.ParseInt`, and any other dynamic
type gives zero. It never panics. -/
def ToBigInt : Value → Int
  | .int i => toInt64 i
  | .int8 i => toInt64 i
  | .int16 i => toInt64 i
  | .int32 i => toInt64 i
  | .int64 i => toInt64 i
  | .uint u => toInt64 u
  | .uint8 u => toInt64 u
  | .uint16 u => toInt64 u
  | .uint32 u => toInt64 u
  | .uint64 u => ((u % 2 ^ 64 : Nat) : Int)
  | .string s => (parseInt s).getD 0
  | _ => 0

/-! ## `big.Int` as decimal text -/

/-- Decimal digits of `n`, written in front of `acc`; `fuel` bounds their number. -/
def decimalDigits (fuel n : Nat) (acc : List Nat) : List Nat :=
  match fuel with
  | 0 => acc
  | fuel + 1 =>
    if n < 10 then (0x30 + n) :: acc
    else decimalDigits fuel (n / 10) ((0x30 + n % 10) :: acc)

/-- Decimal text of a natural number. -/
def natText (n : Nat) : List Nat := decimalDigits (n + 1) n []

/-- The method `(*big.Int).MarshalJSON` on a non-nil receiver: the decimal text,
with a leading `-` for a negative number. -/
def bigIntText : Int → List Nat
  | .ofNat n => natText n
  | .negSucc n => 0x2D :: natText (n + 1)

/-! ## Strings in `encoding/json` -/

/-- The constant `utf8.RuneError`. -/
def RuneError : Nat := 0xFFFD

/-- Whether a byte is a UTF-8 continuation byte in `lo ..= hi`. -/
def inRange (lo hi b : Nat) : Bool := lo ≤ b && b ≤ hi

/-- The function `utf8.DecodeRuneInString`: the first rune of `s` and its width
in bytes; `(RuneError, 1)` for a byte that starts no valid encoding. -/
def decodeRune : List Nat → Nat × Nat
  | [] => (RuneError, 0)
  | s0 :: t =>
    if s0 < 0x80 then (s0, 1)
    else if s0 < 0xC2 then (RuneError, 1)
    else if s0 < 0xE0 then
      match t with
      | s1 :: _ =>
        if inRange 0x80 0xBF s1 then ((s0 % 0x20) * 0x40 + s1 % 0x40, 2) else (RuneError, 1)
      | _ => (RuneError, 1)
    else if s0 < 0xF0 then
      match t with
      | s1 :: s2 :: _ =>
        if inRange (if s0 = 0xE0 then 0xA0 else 0x80) (if s0 = 0xED then 0x9F else 0xBF) s1
            && inRange 0x80 0xBF s2 then
          ((s0 % 0x10) * 0x1000 + (s1 % 0x40) * 0x40 + s2 % 0x40, 3)
        else (RuneError, 1)
      | _ => (RuneError, 1)
    else if s0 < 0xF5 then
      match t with
      | s1 :: s2 :: s3 :: _ =>
        if inRange (if s0 = 0xF0 then 0x90 else 0x80) (if s0 = 0xF4 then 0x8F else 0xBF) s1
            && inRange 0x80 0xBF s2 && inRange 0x80 0xBF s3 then
          ((s0 % 0x08) * 0x40000 + (s1 % 0x40) * 0x1000 + (s2 % 0x40) * 0x40 + s3 % 0x40, 4)
        else (RuneError, 1)
      | _ => (RuneError, 1)
    else (RuneError, 1)

/-- The table `htmlSafeSet`: the ASCII bytes written as they are. -/
def htmlSafe (b : Nat) : Bool :=
  0x20 ≤ b && b < 0x80 && b != 0x22 && b != 0x26 && b != 0x3C && b != 0x3E && b != 0x5C

/-- One digit of the table `hex` (`"0123456789abcdef"`). -/
def hexDigit (n : Nat) : Nat := if n < 10 then 0x30 + n else 0x57 + n

/-- What `appendString` writes for one byte below `utf8.RuneSelf`, with HTML
escaping on (Go 1.22 and later; earlier releases write `\u0008` and `\u000c`
for backspace and form feed). -/
def escapeAscii (b : Nat) : List Nat :=
  if htmlSafe b then [b]
  else if b = 0x5C ∨ b = 0x22 then [0x5C, b]
  else if b = 0x08 then [0x5C, 0x62]
  else if b = 0x0C then [0x5C, 0x66]
  else if b = 0x0A then [0x5C, 0x6E]
  else if b = 0x0D then [0x5C, 0x72]
  else if b = 0x09 then [0x5C, 0x74]
  else [0x5C, 0x75, 0x30, 0x30, hexDigit (b / 16), hexDigit (b % 16)]

/-- The loop of `appendString` over the rest of the source, one rune a step;
`fuel` bounds the number of steps. -/
def appendStringLoop (fuel : Nat) (src : List Nat) : List Nat :=
  match fuel, src with
  | 0, _ => []
  | _ + 1, [] => []
  | fuel + 1, b :: rest =>
    if b < 0x80 then escapeAscii b ++ appendStringLoop fuel rest
    else
      let (c, size) := decodeRune (b :: rest)
      if c = RuneError ∧ size = 1 then
        [0x5C, 0x75, 0x66, 0x66, 0x66, 0x64] ++ appendStringLoop fuel rest
      else if c = 0x2028 ∨ c = 0x2029 then
        [0x5C, 0x75, 0x32, 0x30, 0x32, hexDigit (c % 16)]
          ++ appendStringLoop fuel (rest.drop (size - 1))
      else (b :: rest).take size ++ appendStringLoop fuel (rest.drop (size - 1))

/-- The function `appendString(dst, src, true)` of `encoding/json` on an empty
`dst`: the quoted JSON string for `src`. -/
def appendString (src : List Nat) : List Nat :=
  0x22 :: (appendStringLoop src.length src ++ [0x22])

/-! ## The two records and `json.Marshal` -/

/-- The struct `PfsenseData`. -/
structure PfsenseData where
  Intf1 : List Nat
  Intf2 : List Nat
  Intf3 : List Nat
deriving DecidableEq, Repr

/-- The struct `AvtechData`; the two `*big.Int` are never nil. -/
structure AvtechData where
  Celcius : Int
  Fahrenheit : Int
  Label : List Nat
deriving DecidableEq, Repr

/-- The two instances of `json.Marshal` the program calls. A result is the text,
or the error, which `json.Marshal` returns together with a nil text. -/
structure JsonLib where
  marshalPfsense : PfsenseData → Except GoError (List Nat)
  marshalAvtech : AvtechData → Except GoError (List Nat)

/-- The text `encoding/json` writes for a `PfsenseData`: the fields in
declaration order, under their Go names. -/
def pfsenseJSON (d : PfsenseData) : List Nat :=
  ascii "\x7b\"Intf1\":" ++ appendString d.Intf1
    ++ ascii ",\"Intf2\":" ++ appendString d.Intf2
    ++ ascii ",\"Intf3\":" ++ appendString d.Intf3 ++ ascii "\x7d"

/-- The text `encoding/json` writes for an `AvtechData`: the fields in
declaration order, each `*big.Int` through its `MarshalJSON`. -/
def avtechJSON (d : AvtechData) : List Nat :=
  ascii "\x7b\"Celcius\":" ++ bigIntText d.Celcius
    ++ ascii ",\"Fahrenheit\":" ++ bigIntText d.Fahrenheit
    ++ ascii ",\"Label\":" ++ appendString d.Label ++ ascii "\x7d"

/-- The call `json.Marshal` on a `PfsenseData`; it has no way to fail. -/
def marshalPfsenseData (d : PfsenseData) : Except GoError (List Nat) :=
  .ok (pfsenseJSON d)

/-- The call `json.Marshal` on an `AvtechData`; it has no way to fail. -/
def marshalAvtechData (d : AvtechData) : Except GoError (List Nat) :=
  .ok (avtechJSON d)

/-- The package `encoding/json` as the program uses it. -/
def encodingJson : JsonLib where
  marshalPfsense := marshalPfsenseData
  marshalAvtech := marshalAvtechData

/-- The conversion `string(jsonBytes)` after `jsonBytes, err := json.Marshal(data)`:
the error is logged and nothing else, and a nil slice converts to `""`. -/
def marshalledText (r : Except GoError (List Nat)) : List Nat :=
  match r with
  | .ok jsonBytes => jsonBytes
  | .error _ => []

/-! ## The decoders -/

/-- The function `parsePfsenseSnmp` (main.go, lines 29-43). -/
def parsePfsenseSnmp (json : JsonLib) (snmpData : Option SnmpPacket) :
    Except Panic (List Nat) := do
  let pkt ← deref snmpData
  let intf1 ← index pkt.Variables 0 >>= fun v => assertBytes v.Value
  let intf2 ← index pkt.Variables 1 >>= fun v => assertBytes v.Value
  let intf3 ← index pkt.Variables 2 >>= fun v => assertBytes v.Value
  let data : PfsenseData := { Intf1 := intf1, Intf2 := intf2, Intf3 := intf3 }
  return marshalledText (json.marshalPfsense data)

/-- The function `parseAvtechData` (main.go, lines 45-59). -/
def parseAvtechData (json : JsonLib) (snmpData : Option SnmpPacket) :
    Except Panic (List Nat) := do
  let pkt ← deref snmpData
  let celcius ← index pkt.Variables 0 >>= fun v => pure (ToBigInt v.Value)
  let fahrenheit ← index pkt.Variables 1 >>= fun v => pure (ToBigInt v.Value)
  let label ← index pkt.Variables 2 >>= fun v => assertBytes v.Value
  let data : AvtechData := { Celcius := celcius, Fahrenheit := fahrenheit, Label := label }
  return marshalledText (json.marshalAvtech data)

/-! ## The worker -/

/-- What one `snmpObj.Get(oids)` returns: the packet pointer and the error. -/
structure GetResult where
  result : Option SnmpPacket
  err : Option GoError
deriving DecidableEq, Repr

/-- The answers of the outside world to one worker: the broker connect token
(`token.Wait()`, `token.Error()`), `snmpObj.Connect()`, and the `Get` of each
tick, numbered from 0. -/
structure Env where
  brokerWait : Bool
  brokerErr : Option GoError
  sessionErr : Option GoError
  get : Nat → List String → GetResult

/-- The calls a worker makes to the outside world. -/
inductive Event where
  /-- The call `mqttClient.Connect()`. -/
  | brokerConnect
  /-- The call `snmpObj.Connect()`. -/
  | sessionConnect
  /-- The call `snmpObj.Get(oids)`. -/
  | get (oids : List String)
  /-- The call `client.Publish(topic, qos, retained, payload)` and the wait on its token. -/
  | publish (topic : String) (qos : Nat) (retained : Bool) (payload : List Nat)
  /-- The call `time.Sleep`, in milliseconds. -/
  | sleep (milliseconds : Nat)
deriving DecidableEq, Repr

/-- The function `publish` (main.go, lines 131-136). -/
def publish (msg : List Nat) : List Event :=
  [.publish "test" 0 false msg]

/-- The logging loop over `result.Variables` (main.go, lines 95-106): the case
`gosnmp.OctetString` asserts `[]byte`, the case `gosnmp.Integer` calls
`gosnmp.ToBigInt`, which cannot panic. -/
def logVariables : List SnmpPDU → Except Panic Unit
  | [] => .ok ()
  | value :: rest =>
    if value.Typ = OctetString then
      match assertBytes value.Value with
      | .ok _ => logVariables rest
      | .error p => .error p
    else logVariables rest

/-- One pass through the body of the `for true` loop (main.go, lines 90-119)
on the answer `r` of its `Get`: the calls made, and the panic that ended the
pass if one did. A non-nil `err` is logged and nothing else. -/
def tick (json : JsonLib) (targetName : String) (oids : List String) (r : GetResult) :
    List Event × Option Panic :=
  match deref r.result >>= fun pkt => logVariables pkt.Variables with
  | .error p => ([.get oids], some p)
  | .ok _ =>
    match (if targetName = "pfSense" then (parsePfsenseSnmp json r.result).map publish
           else .ok []) with
    | .error p => ([.get oids], some p)
    | .ok sentA =>
      match (if targetName = "avtech" then (parseAvtechData json r.result).map publish
             else .ok []) with
      | .error p => (.get oids :: sentA, some p)
      | .ok sentB => (.get oids :: (sentA ++ sentB ++ [.sleep 50]), none)

/-- How a worker ended: an unrecovered panic, or `log.Fatalf`, which calls `os.Exit(1)`. -/
inductive Fatal where
  | panic (p : Panic)
  | exit (code : Nat)
deriving DecidableEq, Repr

/-- Where a worker stands in `snmpWorker`. -/
inductive Phase where
  /-- Before `mqttClient.Connect()`. -/
  | start
  /-- The broker is connected; before `snmpObj.Connect()`. -/
  | brokerUp
  /-- In the loop, before the `Get` numbered `k`. -/
  | polling (k : Nat)
  /-- Ended. -/
  | stopped (how : Fatal)
deriving DecidableEq, Repr

/-- One step of `snmpWorker` (main.go, lines 61-121): the broker connect, the
session connect, or one pass of the loop. -/
def workerStep (json : JsonLib) (env : Env) (targetName : String) (oids : List String) :
    Phase → Phase × List Event
  | .start =>
    match env.brokerWait, env.brokerErr with
    | true, some e => (.stopped (.panic (.raised e)), [.brokerConnect])
    | _, _ => (.brokerUp, [.brokerConnect])
  | .brokerUp =>
    match env.sessionErr with
    | some _ => (.stopped (.exit 1), [.sessionConnect])
    | none => (.polling 0, [.sessionConnect])
  | .polling k =>
    match tick json targetName oids (env.get k oids) with
    | (events, some p) => (.stopped (.panic p), events)
    | (events, none) => (.polling (k + 1), events)
  | .stopped how => (.stopped how, [])

/-- The first `n` steps of a worker from `phase` on. -/
def workerRun (json : JsonLib) (env : Env) (targetName : String) (oids : List String) :
    Nat → Phase → Phase × List Event
  | 0, phase => (phase, [])
  | n + 1, phase =>
    let first := workerStep json env targetName oids phase
    let later := workerRun json env targetName oids n first.1
    (later.1, first.2 ++ later.2)

/-- The function `snmpWorker`, observed for `n` steps. -/
def snmpWorker (json : JsonLib) (env : Env) (targetName : String) (oids : List String)
    (n : Nat) : Phase × List Event :=
  workerRun json env targetName oids n .start

/-! ## The process -/

/-- The two goroutines `main` starts. -/
inductive Worker where
  | pfSense
  | avtech
deriving DecidableEq, Repr

/-- The variable `pfsenseOids` of `main`. -/
def pfsenseOids : List String :=
  ["1.3.6.1.4.1.12325.1.200.1.8.2.1.2.1",
   "1.3.6.1.4.1.12325.1.200.1.8.2.1.2.2",
   "1.3.6.1.4.1.12325.1.200.1.8.2.1.2.3"]

/-- The variable `avtechOids` of `main`. -/
def avtechOids : List String :=
  ["1.3.6.1.4.1.20916.1.9.1.1.1.1.0",
   "1.3.6.1.4.1.20916.1.9.1.1.1.2.0",
   "1.3.6.1.4.1.20916.1.9.1.1.1.3.0"]

/-- The process: where each goroutine stands, and the calls made so far. -/
structure Process where
  pfsense : Phase
  avtech : Phase
  trace : List (Worker × Event)
deriving DecidableEq, Repr

/-- Whether a worker has ended. -/
def Phase.ended : Phase → Bool
  | .stopped _ => true
  | _ => false

/-- Whether the process is over: an unrecovered panic in any goroutine and
`os.Exit` both end the whole program, and neither worker has a `recover`. -/
def Process.terminated (p : Process) : Bool :=
  p.pfsense.ended || p.avtech.ended

/-- The scheduler lets worker `w` take its next step. -/
def Process.step (json : JsonLib) (envP envA : Env) (w : Worker) (p : Process) : Process :=
  if p.terminated then p
  else
    match w with
    | .pfSense =>
      let next := workerStep json envP "pfSense" pfsenseOids p.pfsense
      { p with pfsense := next.1, trace := p.trace ++ next.2.map fun e => (Worker.pfSense, e) }
    | .avtech =>
      let next := workerStep json envA "avtech" avtechOids p.avtech
      { p with avtech := next.1, trace := p.trace ++ next.2.map fun e => (Worker.avtech, e) }

/-- The process from `p` on under a schedule. -/
def Process.run (json : JsonLib) (envP envA : Env) (schedule : List Worker) (p : Process) :
    Process :=
  schedule.foldl (fun q w => Process.step json envP envA w q) p

/-- The function `main` (lines 138-221) from the two `go snmpWorker(...)` on,
under a schedule of the two goroutines. -/
def main (json : JsonLib) (envP envA : Env) (schedule : List Worker) : Process :=
  Process.run json envP envA schedule { pfsense := .start, avtech := .start, trace := [] }

/-! ## Reading a payload back

A reader for the compact JSON text the program writes, after RFC 8259: what a
subscriber gets out of a payload. -/

/-- A JSON string or integer. -/
inductive JsonValue where
  | str (s : List Nat)
  | num (n : Int)
deriving DecidableEq, Repr

/-- Value of one hexadecimal digit. -/
def hexValue (c : Nat) : Option Nat :=
  if 0x30 ≤ c ∧ c ≤ 0x39 then some (c - 0x30)
  else if 0x61 ≤ c ∧ c ≤ 0x66 then some (c - 0x57)
  else if 0x41 ≤ c ∧ c ≤ 0x46 then some (c - 0x37)
  else none

/-- The UTF-8 encoding of a code point below 0x10000. -/
def utf8Encode (r : Nat) : List Nat :=
  if r < 0x80 then [r]
  else if r < 0x800 then [0xC0 + r / 0x40, 0x80 + r % 0x40]
  else [0xE0 + r / 0x1000, 0x80 + r / 0x40 % 0x40, 0x80 + r % 0x40]

/-- The byte a two-character escape stands for. -/
def unescape (e : Nat) : Option Nat :=
  if e = 0x22 ∨ e = 0x5C ∨ e = 0x2F then some e
  else if e = 0x62 then some 0x08
  else if e = 0x66 then some 0x0C
  else if e = 0x6E then some 0x0A
  else if e = 0x72 then some 0x0D
  else if e = 0x74 then some 0x09
  else none

/-- Reads a JSON string after its opening quote: its value and the text after
the closing quote. An escape that names a UTF-16 surrogate is not read. -/
def readStringBody : List Nat → Option (List Nat × List Nat)
  | [] => none
  | c :: rest =>
    if c = 0x22 then some ([], rest)
    else if c = 0x5C then
      match rest with
      | [] => none
      | e :: rest1 =>
        if e = 0x75 then
          match rest1 with
          | h1 :: h2 :: h3 :: h4 :: rest2 =>
            match hexValue h1, hexValue h2, hexValue h3, hexValue h4 with
            | some d1, some d2, some d3, some d4 =>
              let r := d1 * 0x1000 + d2 * 0x100 + d3 * 0x10 + d4
              if 0xD800 ≤ r ∧ r < 0xE000 then none
              else (readStringBody rest2).map fun p => (utf8Encode r ++ p.1, p.2)
            | _, _, _, _ => none
          | _ => none
        else
          match unescape e with
          | some b => (readStringBody rest1).map fun p => (b :: p.1, p.2)
          | none => none
    else if c < 0x20 then none
    else (readStringBody rest).map fun p => (c :: p.1, p.2)

/-- Reads a JSON integer: an optional `-`, then digits without a leading zero,
not followed by a fraction or an exponent. -/
def readInt (s : List Nat) : Option (Int × List Nat) :=
  let neg := s.head? == some 0x2D
  let t := if neg then s.tail else s
  let digits := t.takeWhile isDigit
  let rest := t.dropWhile isDigit
  if digits.isEmpty then none
  else if digits.length > 1 && digits.head? == some 0x30 then none
  else if rest.head? == some 0x2E || rest.head? == some 0x65 || rest.head? == some 0x45 then none
  else some (if neg then -(digitsValue 0 digits : Int) else (digitsValue 0 digits : Int), rest)

/-- Reads a JSON string or integer. -/
def readValue (s : List Nat) : Option (JsonValue × List Nat) :=
  match s with
  | [] => none
  | c :: rest =>
    if c = 0x22 then (readStringBody rest).map fun p => (.str p.1, p.2)
    else (readInt s).map fun p => (.num p.1, p.2)

/-- Reads the members of an object up to the end of the text, in order. -/
def readMembers : Nat → List Nat → Option (List (List Nat × JsonValue))
  | 0, _ => none
  | fuel + 1, s =>
    match s with
    | 0x22 :: rest =>
      match readStringBody rest with
      | some (key, 0x3A :: rest1) =>
        match readValue rest1 with
        | some (v, [0x7D]) => some [(key, v)]
        | some (v, 0x2C :: rest2) => (readMembers fuel rest2).map fun ms => (key, v) :: ms
        | _ => none
      | _ => none
    | _ => none

/-- Reads a payload: a non-empty JSON object of strings and integers, as the
list of its members in the order written. -/
def readObject (s : List Nat) : Option (List (List Nat × JsonValue)) :=
  match s with
  | 0x7B :: rest => readMembers rest.length rest
  | _ => none

/-- The function `utf8.Valid`: no byte of `s` decodes to `(RuneError, 1)`;
`fuel` bounds the number of runes. -/
def validUTF8Loop (fuel : Nat) (s : List Nat) : Bool :=
  match fuel, s with
  | 0, _ => true
  | _ + 1, [] => true
  | fuel + 1, b :: rest =>
    let d := decodeRune (b :: rest)
    if d.1 = RuneError ∧ d.2 = 1 then false
    else validUTF8Loop fuel (rest.drop (d.2 - 1))

/-- Whether `s` is valid UTF-8. -/
def validUTF8 (s : List Nat) : Bool := validUTF8Loop s.length s

/-- What `encoding/json` makes of a string: each byte that starts no valid
UTF-8 encoding becomes U+FFFD; `fuel` bounds the number of runes. -/
def toValidUTF8Loop (fuel : Nat) (s : List Nat) : List Nat :=
  match fuel, s with
  | 0, _ => []
  | _ + 1, [] => []
  | fuel + 1, b :: rest =>
    let d := decodeRune (b :: rest)
    if d.1 = RuneError ∧ d.2 = 1 then [0xEF, 0xBF, 0xBD] ++ toValidUTF8Loop fuel rest
    else (b :: rest).take d.2 ++ toValidUTF8Loop fuel (rest.drop (d.2 - 1))

/-- The string with every invalid byte replaced by U+FFFD. -/
def toValidUTF8 (s : List Nat) : List Nat := toValidUTF8Loop s.length s

/-- A byte that a JSON string holds as it is. -/
def plainByte (x : Nat) : Bool := 0x20 ≤ x && x != 0x22 && x != 0x5C

/-! ## Vocabulary of the statements -/

/-- The value of the variable at position `i`, if the packet has one. -/
def valueAt (pkt : SnmpPacket) (i : Nat) : Option Value :=
  (pkt.Variables[i]?).map fun v => v.Value

/-- Whether the dynamic type of a value is `[]byte`. -/
def Value.isBytes : Value → Bool
  | .bytes _ => true
  | _ => false

/-- The number a value of one of Go's integer types holds. -/
def Value.integer? : Value → Option Int
  | .int i => some i
  | .int8 i => some i
  | .int16 i => some i
  | .int32 i => some i
  | .int64 i => some i
  | .uint u => some (u : Int)
  | .uint8 u => some (u : Int)
  | .uint16 u => some (u : Int)
  | .uint32 u => some (u : Int)
  | .uint64 u => some (u : Int)
  | _ => none

/-- The value `v` is of a Go integer type and holds `m`, where `m` lies in the
signed 64-bit range or `v` is a `uint64`: every integer value but an unsigned
one of 2^63 or more that is not a `uint64`. -/
def holdsWithin64 (v : Value) (m : Int) : Prop :=
  v.integer? = some m ∧ ((-2 ^ 63 ≤ m ∧ m < 2 ^ 63) ∨ ∃ u, v = .uint64 u ∧ u < 2 ^ 64)

/-! ## Sample inputs -/

/-- The sample `[("o1","up"),("o2","down"),("o3","up")]`. -/
def sampleUpDownUp : SnmpPacket :=
  { Variables := [⟨ascii "o1", OctetString, .bytes (ascii "up")⟩,
      ⟨ascii "o2", OctetString, .bytes (ascii "down")⟩,
      ⟨ascii "o3", OctetString, .bytes (ascii "up")⟩] }

/-- The same three values under other names and type tags, with a fourth variable. -/
def sampleUpDownUpExtra : SnmpPacket :=
  { Variables := [⟨ascii "a", 0x44, .bytes (ascii "up")⟩,
      ⟨ascii "b", 0x44, .bytes (ascii "down")⟩,
      ⟨ascii "c", 0x44, .bytes (ascii "up")⟩,
      ⟨ascii "d", Integer, .int 7⟩] }

/-- The values `(250, 770, "SensorA")`. -/
def sampleSensorA : SnmpPacket :=
  { Variables := [⟨ascii "o1", Integer, .int 250⟩, ⟨ascii "o2", Integer, .int 770⟩,
      ⟨ascii "o3", OctetString, .bytes (ascii "SensorA")⟩] }

/-- A class A sample whose first octet string is the single byte 0xFF. -/
def sampleInvalidText : SnmpPacket :=
  { Variables := [⟨ascii "o1", OctetString, .bytes [0xFF]⟩,
      ⟨ascii "o2", OctetString, .bytes (ascii "down")⟩,
      ⟨ascii "o3", OctetString, .bytes (ascii "up")⟩] }

/-- A class B sample whose first value is the `uint` 2^63 (tagged `Gauge32`). -/
def sampleUintWrap : SnmpPacket :=
  { Variables := [⟨ascii "o1", 0x42, .uint (2 ^ 63)⟩, ⟨ascii "o2", Integer, .int 770⟩,
      ⟨ascii "o3", OctetString, .bytes (ascii "SensorA")⟩] }

/-- A class B sample whose first value is the `uint64` 2^64 - 1 (tagged
`Counter64`) and whose second is a negative `int`. -/
def sampleCounter64 : SnmpPacket :=
  { Variables := [⟨ascii "o1", 0x46, .uint64 (2 ^ 64 - 1)⟩, ⟨ascii "o2", Integer, .int (-40)⟩,
      ⟨ascii "o3", OctetString, .bytes (ascii "SensorA")⟩] }

/-- A class B sample whose first value is an octet string. -/
def sampleTextForNumber : SnmpPacket :=
  { Variables := [⟨ascii "o1", OctetString, .bytes (ascii "x")⟩, ⟨ascii "o2", Integer, .int 770⟩,
      ⟨ascii "o3", OctetString, .bytes (ascii "SensorA")⟩] }

/-- A sample of two variables. -/
def sampleShort : SnmpPacket :=
  { Variables := [⟨ascii "o1", OctetString, .bytes (ascii "up")⟩,
      ⟨ascii "o2", OctetString, .bytes (ascii "down")⟩] }

/-- Both connects succeed and every `Get` answers `r`. -/
def envAnswering (r : GetResult) : Env :=
  { brokerWait := true, brokerErr := none, sessionErr := none, get := fun _ _ => r }

/-- The broker connects and `snmpObj.Connect()` returns an error. -/
def envSessionDown : Env :=
  { brokerWait := true, brokerErr := none, sessionErr := some ⟨"dial udp: no route to host"⟩,
    get := fun _ _ => ⟨some sampleUpDownUp, none⟩ }

/-- The broker connect token carries an error. -/
def envBrokerDown : Env :=
  { brokerWait := true, brokerErr := some ⟨"network Error : dial tcp: connection refused"⟩,
    sessionErr := none, get := fun _ _ => ⟨some sampleUpDownUp, none⟩ }

/-- A `Get` that times out: the nil packet and an error, as gosnmp returns them. -/
def readTimeout : GetResult :=
  { result := none, err := some ⟨"request timeout (after 3 retries)"⟩ }

/-- A `Get` that returns an error next to a packet. -/
def readErrorWithPacket : GetResult :=
  { result := some sampleUpDownUp, err := some ⟨"recover: runtime error"⟩ }

/-- A `json.Marshal` that fails on every record. -/
def failingJson : JsonLib :=
  { marshalPfsense := fun _ => .error ⟨"json: error calling MarshalJSON"⟩,
    marshalAvtech := fun _ => .error ⟨"json: error calling MarshalJSON"⟩ }

/-! ## Lemmas: integers and their decimal text -/

theorem toInt64_of_inRange (i : Int) (h1 : -2 ^ 63 ≤ i) (h2 : i < 2 ^ 63) : toInt64 i = i := by
  unfold toInt64
  omega

theorem toInt64_bounds (i : Int) : -2 ^ 63 ≤ toInt64 i ∧ toInt64 i < 2 ^ 63 := by
  unfold toInt64
  omega

theorem decimalDigits_succ (fuel n : Nat) (acc : List Nat) :
    decimalDigits (fuel + 1) n acc =
      if n < 10 then (0x30 + n) :: acc else decimalDigits fuel (n / 10) ((0x30 + n % 10) :: acc) := rfl

theorem isDigit_add (n : Nat) (h : n < 10) : isDigit (0x30 + n) = true := by
  simp only [isDigit, Bool.and_eq_true, decide_eq_true_eq]
  omega

theorem digitsValue_cons (a c : Nat) (t : List Nat) :
    digitsValue a (c :: t) = digitsValue (a * 10 + (c - 0x30)) t := rfl

/-- Shape of the text of one decimal digit. -/
theorem decimalDigits_single (n : Nat) (hn : n < 10) :
    (∀ c ∈ [0x30 + n], isDigit c = true) ∧ [0x30 + n] ≠ []
      ∧ (∀ a t, digitsValue a ([0x30 + n] ++ t) = digitsValue (a * 10 ^ [0x30 + n].length + n) t)
      ∧ (1 < [0x30 + n].length → [0x30 + n].head? ≠ some 0x30) := by
  refine ⟨?_, List.cons_ne_nil _ _, ?_, ?_⟩
  · intro c hc
    rw [List.mem_singleton] at hc
    rw [hc]
    exact isDigit_add n hn
  · intro a t
    rw [List.singleton_append, digitsValue_cons, List.length_singleton, pow_one,
      Nat.add_sub_cancel_left]
  · intro h1
    rw [List.length_singleton] at h1
    exact absurd h1 (lt_irrefl 1)

theorem decimalDigits_spec (fuel : Nat) : ∀ (n : Nat) (acc : List Nat), n < 10 ^ (fuel + 1) →
    ∃ ds : List Nat, decimalDigits (fuel + 1) n acc = ds ++ acc ∧ (∀ c ∈ ds, isDigit c = true)
      ∧ ds ≠ [] ∧ (∀ a t, digitsValue a (ds ++ t) = digitsValue (a * 10 ^ ds.length + n) t)
      ∧ (1 < ds.length → ds.head? ≠ some 0x30) := by
  induction fuel with
  | zero =>
    intro n acc h
    have hn : n < 10 := by simpa using h
    refine ⟨[0x30 + n], ?_, decimalDigits_single n hn⟩
    rw [decimalDigits_succ, if_pos hn]
    rfl
  | succ fuel ih =>
    intro n acc h
    by_cases hn : n < 10
    · refine ⟨[0x30 + n], ?_, decimalDigits_single n hn⟩
      rw [decimalDigits_succ, if_pos hn]
      rfl
    · have hdiv : n / 10 < 10 ^ (fuel + 1) := by
        rw [Nat.div_lt_iff_lt_mul (by norm_num)]
        rw [pow_succ] at h
        exact h
      obtain ⟨ds, h1, h2, h3, h4, h5⟩ := ih (n / 10) ((0x30 + n % 10) :: acc) hdiv
      refine ⟨ds ++ [0x30 + n % 10], ?_, ?_, ?_, ?_, ?_⟩
      · rw [decimalDigits_succ, if_neg hn, h1, List.append_assoc]
        rfl
      · intro c hc
        rw [List.mem_append] at hc
        rcases hc with hc | hc
        · exact h2 c hc
        · rw [List.mem_singleton] at hc
          rw [hc]
          exact isDigit_add _ (Nat.mod_lt _ (by norm_num))
      · intro hnil
        exact h3 (List.append_eq_nil.mp hnil).1
      · intro a t
        rw [List.append_assoc, h4, List.singleton_append, digitsValue_cons, List.length_append,
          List.length_singleton, Nat.add_sub_cancel_left, pow_succ]
        congr 1
        have := Nat.div_add_mod n 10
        nlinarith [this]
      · intro _
        cases ds with
        | nil => exact absurd rfl h3
        | cons d ds' =>
          rw [List.cons_append, List.head?_cons]
          intro hd
          have hd' : d = 48 := Option.some.inj hd
          subst hd'
          cases ds' with
          | nil =>
            have h0 := h4 0 []
            rw [List.append_nil, digitsValue_cons, List.length_singleton] at h0
            have h0' : (0 * 10 + (48 - 48) : Nat) = 0 * 10 ^ 1 + n / 10 := h0
            omega
          | cons e es =>
            exact h5 (by rw [List.length_cons, List.length_cons]; omega) rfl

theorem natText_spec (n : Nat) :
    ∃ ds : List Nat, natText n = ds ∧ (∀ c ∈ ds, isDigit c = true) ∧ ds ≠ []
      ∧ digitsValue 0 ds = n ∧ (1 < ds.length → ds.head? ≠ some 0x30) := by
  have hlt : n < 10 ^ (n + 1) :=
    lt_of_lt_of_le (Nat.lt_pow_self (by norm_num) n) (Nat.pow_le_pow_right (by norm_num) (by omega))
  obtain ⟨ds, h1, h2, h3, h4, h5⟩ := decimalDigits_spec n n [] hlt
  refine ⟨ds, ?_, h2, h3, ?_, h5⟩
  · rw [natText, h1, List.append_nil]
  · have := h4 0 []
    rw [List.append_nil, Nat.zero_mul, Nat.zero_add] at this
    exact this

theorem takeWhile_digits (ds r : List Nat) (h : ∀ c ∈ ds, isDigit c = true) :
    (ds ++ 0x2C :: r).takeWhile isDigit = ds := by
  induction ds with
  | nil => rfl
  | cons d ds ih =>
    rw [List.cons_append, List.takeWhile_cons, h d (List.mem_cons_self _ _)]
    simp only [if_true]
    rw [ih (fun c hc => h c (List.mem_cons_of_mem _ hc))]

theorem dropWhile_digits (ds r : List Nat) (h : ∀ c ∈ ds, isDigit c = true) :
    (ds ++ 0x2C :: r).dropWhile isDigit = 0x2C :: r := by
  induction ds with
  | nil => rfl
  | cons d ds ih =>
    rw [List.cons_append, List.dropWhile_cons, h d (List.mem_cons_self _ _)]
    simp only [if_true]
    exact ih (fun c hc => h c (List.mem_cons_of_mem _ hc))

/-- Reading back a run of digits that is followed by a comma. -/
theorem readInt_digits (ds r : List Nat) (h : ∀ c ∈ ds, isDigit c = true) (hne : ds ≠ [])
    (hz : 1 < ds.length → ds.head? ≠ some 0x30) :
    readInt (ds ++ 0x2C :: r) = some ((digitsValue 0 ds : Int), 0x2C :: r) := by
  obtain ⟨d, ds', rfl⟩ := List.exists_cons_of_ne_nil hne
  have hd : isDigit d = true := h d (List.mem_cons_self _ _)
  have hd2 : d ≠ 0x2D := by
    intro hc
    rw [hc] at hd
    exact absurd hd (by decide)
  have hneg : ((d :: ds' ++ 0x2C :: r).head? == some 0x2D) = false := by
    rw [List.cons_append, List.head?_cons]
    simp [hd2]
  unfold readInt
  simp only [hneg, Bool.false_eq_true, if_false]
  rw [takeWhile_digits _ _ h, dropWhile_digits _ _ h]
  have hz' : ((d :: ds').length > 1 && (d :: ds').head? == some 0x30) = false := by
    by_cases hl : 1 < (d :: ds').length
    · have hh : ((d :: ds').head? == some 0x30) = false := by
        rw [beq_eq_false_iff_ne]
        exact hz hl
      rw [hh, Bool.and_false]
    · have hh : decide ((d :: ds').length > 1) = false := decide_eq_false hl
      rw [hh, Bool.false_and]
  rw [hz']
  simp

theorem readInt_neg_digits (ds r : List Nat) (h : ∀ c ∈ ds, isDigit c = true) (hne : ds ≠ [])
    (hz : 1 < ds.length → ds.head? ≠ some 0x30) :
    readInt (0x2D :: (ds ++ 0x2C :: r)) = some (-(digitsValue 0 ds : Int), 0x2C :: r) := by
  unfold readInt
  have hneg : ((0x2D :: (ds ++ 0x2C :: r)).head? == some 0x2D) = true := by
    rw [List.head?_cons]
    rfl
  simp only [hneg, if_true, List.tail_cons]
  rw [takeWhile_digits _ _ h, dropWhile_digits _ _ h]
  have hz' : (ds.length > 1 && ds.head? == some 0x30) = false := by
    by_cases hl : 1 < ds.length
    · have hh : (ds.head? == some 0x30) = false := by
        rw [beq_eq_false_iff_ne]
        exact hz hl
      rw [hh, Bool.and_false]
    · have hh : decide (ds.length > 1) = false := decide_eq_false hl
      rw [hh, Bool.false_and]
  rw [hz']
  have he : ds.isEmpty = false := by
    cases ds with
    | nil => exact absurd rfl hne
    | cons _ _ => rfl
  simp [he]

theorem readInt_bigIntText (m : Int) (r : List Nat) :
    readInt (bigIntText m ++ 0x2C :: r) = some (m, 0x2C :: r) := by
  cases m with
  | ofNat n =>
    obtain ⟨ds, h1, h2, h3, h4, h5⟩ := natText_spec n
    rw [bigIntText, h1, readInt_digits ds r h2 h3 h5, h4]
    rfl
  | negSucc n =>
    obtain ⟨ds, h1, h2, h3, h4, h5⟩ := natText_spec (n + 1)
    rw [bigIntText, h1, List.cons_append, readInt_neg_digits ds r h2 h3 h5, h4]
    rfl

/-! ## Lemmas: JSON strings -/

theorem readStringBody_cons (c : Nat) (rest : List Nat) :
    readStringBody (c :: rest) =
      if c = 0x22 then some ([], rest)
      else if c = 0x5C then
        match rest with
        | [] => none
        | e :: rest1 =>
          if e = 0x75 then
            match rest1 with
            | h1 :: h2 :: h3 :: h4 :: rest2 =>
              match hexValue h1, hexValue h2, hexValue h3, hexValue h4 with
              | some d1, some d2, some d3, some d4 =>
                let r := d1 * 0x1000 + d2 * 0x100 + d3 * 0x10 + d4
                if 0xD800 ≤ r ∧ r < 0xE000 then none
                else (readStringBody rest2).map fun p => (utf8Encode r ++ p.1, p.2)
              | _, _, _, _ => none
            | _ => none
          else
            match unescape e with
            | some b => (readStringBody rest1).map fun p => (b :: p.1, p.2)
            | none => none
      else if c < 0x20 then none
      else (readStringBody rest).map fun p => (c :: p.1, p.2) := by
  rw [readStringBody.eq_def]

theorem readStringBody_plain (c : Nat) (Y : List Nat) (h1 : c ≠ 0x22) (h2 : c ≠ 0x5C)
    (h3 : ¬ c < 0x20) :
    readStringBody (c :: Y) = (readStringBody Y).map fun p => (c :: p.1, p.2) := by
  rw [readStringBody_cons, if_neg h1, if_neg h2, if_neg h3]

theorem readStringBody_escapeAscii (b : Nat) (Y : List Nat) (hb : b < 0x80) :
    readStringBody (escapeAscii b ++ Y) = (readStringBody Y).map fun p => (b :: p.1, p.2) := by
  interval_cases b <;>
    simp [escapeAscii, htmlSafe, hexDigit, readStringBody_cons, hexValue, unescape, utf8Encode]

theorem readStringBody_verbatim (xs Y : List Nat) (h : ∀ x ∈ xs, 0x80 ≤ x) :
    readStringBody (xs ++ Y) = (readStringBody Y).map fun p => (xs ++ p.1, p.2) := by
  induction xs with
  | nil =>
    rw [List.nil_append]
    cases readStringBody Y <;> rfl
  | cons x xs ih =>
    have hx : 0x80 ≤ x := h x (List.mem_cons_self _ _)
    rw [List.cons_append, readStringBody_plain x _ (by omega) (by omega) (by omega),
      ih (fun y hy => h y (List.mem_cons_of_mem _ hy))]
    cases readStringBody Y <;> rfl

theorem appendStringLoop_cons (fuel b : Nat) (rest : List Nat) :
    appendStringLoop (fuel + 1) (b :: rest) =
      if b < 0x80 then escapeAscii b ++ appendStringLoop fuel rest
      else if (decodeRune (b :: rest)).1 = RuneError ∧ (decodeRune (b :: rest)).2 = 1 then
        [0x5C, 0x75, 0x66, 0x66, 0x66, 0x64] ++ appendStringLoop fuel rest
      else if (decodeRune (b :: rest)).1 = 0x2028 ∨ (decodeRune (b :: rest)).1 = 0x2029 then
        [0x5C, 0x75, 0x32, 0x30, 0x32, hexDigit ((decodeRune (b :: rest)).1 % 16)]
          ++ appendStringLoop fuel (rest.drop ((decodeRune (b :: rest)).2 - 1))
      else (b :: rest).take (decodeRune (b :: rest)).2
          ++ appendStringLoop fuel (rest.drop ((decodeRune (b :: rest)).2 - 1)) := rfl

theorem toValidUTF8Loop_cons (fuel b : Nat) (rest : List Nat) :
    toValidUTF8Loop (fuel + 1) (b :: rest) =
      if (decodeRune (b :: rest)).1 = RuneError ∧ (decodeRune (b :: rest)).2 = 1 then
        [0xEF, 0xBF, 0xBD] ++ toValidUTF8Loop fuel rest
      else (b :: rest).take (decodeRune (b :: rest)).2
          ++ toValidUTF8Loop fuel (rest.drop ((decodeRune (b :: rest)).2 - 1)) := rfl

theorem decodeRune_cons (s0 : Nat) (t : List Nat) :
    decodeRune (s0 :: t) =
    if s0 < 0x80 then (s0, 1)
    else if s0 < 0xC2 then (RuneError, 1)
    else if s0 < 0xE0 then
      match t with
      | s1 :: _ =>
        if inRange 0x80 0xBF s1 then ((s0 % 0x20) * 0x40 + s1 % 0x40, 2) else (RuneError, 1)
      | _ => (RuneError, 1)
    else if s0 < 0xF0 then
      match t with
      | s1 :: s2 :: _ =>
        if inRange (if s0 = 0xE0 then 0xA0 else 0x80) (if s0 = 0xED then 0x9F else 0xBF) s1
            && inRange 0x80 0xBF s2 then
          ((s0 % 0x10) * 0x1000 + (s1 % 0x40) * 0x40 + s2 % 0x40, 3)
        else (RuneError, 1)
      | _ => (RuneError, 1)
    else if s0 < 0xF5 then
      match t with
      | s1 :: s2 :: s3 :: _ =>
        if inRange (if s0 = 0xF0 then 0x90 else 0x80) (if s0 = 0xF4 then 0x8F else 0xBF) s1
            && inRange 0x80 0xBF s2 && inRange 0x80 0xBF s3 then
          ((s0 % 0x08) * 0x40000 + (s1 % 0x40) * 0x1000 + (s2 % 0x40) * 0x40 + s3 % 0x40, 4)
        else (RuneError, 1)
      | _ => (RuneError, 1)
    else (RuneError, 1) := rfl

theorem decodeRune_ascii (b : Nat) (rest : List Nat) (hb : b < 0x80) :
    decodeRune (b :: rest) = (b, 1) := by
  rw [decodeRune_cons, if_pos hb]

theorem inRange_iff (lo hi b : Nat) : inRange lo hi b = true ↔ lo ≤ b ∧ b ≤ hi := by
  simp only [inRange, Bool.and_eq_true, decide_eq_true_eq]

/-- The shapes `utf8.DecodeRuneInString` can return on a lead byte of 0x80 or more. -/
theorem decodeRune_cases (b : Nat) (rest : List Nat) (hb : ¬ b < 0x80) :
    decodeRune (b :: rest) = (RuneError, 1)
    ∨ (∃ s1 t, rest = s1 :: t ∧ 0x80 ≤ s1 ∧ s1 ≤ 0xBF ∧ 0xC2 ≤ b ∧ b < 0xE0
        ∧ decodeRune (b :: rest) = ((b % 0x20) * 0x40 + s1 % 0x40, 2))
    ∨ (∃ s1 s2 t, rest = s1 :: s2 :: t ∧ 0x80 ≤ s1 ∧ s1 ≤ 0xBF ∧ 0x80 ≤ s2 ∧ s2 ≤ 0xBF
        ∧ 0xE0 ≤ b ∧ b < 0xF0
        ∧ decodeRune (b :: rest) = ((b % 0x10) * 0x1000 + (s1 % 0x40) * 0x40 + s2 % 0x40, 3))
    ∨ (∃ s1 s2 s3 t, rest = s1 :: s2 :: s3 :: t ∧ 0x80 ≤ s1 ∧ s1 ≤ 0xBF ∧ 0x80 ≤ s2
        ∧ s2 ≤ 0xBF ∧ 0x80 ≤ s3 ∧ s3 ≤ 0xBF ∧ 0xF0 ≤ b ∧ b < 0xF5 ∧ (b = 0xF0 → 0x90 ≤ s1)
        ∧ decodeRune (b :: rest) = ((b % 0x08) * 0x40000 + (s1 % 0x40) * 0x1000
            + (s2 % 0x40) * 0x40 + s3 % 0x40, 4)) := by
  rw [decodeRune_cons, if_neg hb]
  by_cases h1 : b < 0xC2
  · left
    rw [if_pos h1]
  rw [if_neg h1]
  by_cases h2 : b < 0xE0
  · rw [if_pos h2]
    cases rest with
    | nil => left; rfl
    | cons s1 t =>
      by_cases hr : inRange 0x80 0xBF s1 = true
      · right; left
        have hr' := (inRange_iff _ _ _).mp hr
        refine ⟨s1, t, rfl, hr'.1, hr'.2, by omega, h2, ?_⟩
        simp only [hr, if_true]
      · left
        simp only [hr, Bool.false_eq_true, if_false]
  rw [if_neg h2]
  by_cases h3 : b < 0xF0
  · rw [if_pos h3]
    rcases rest with _ | ⟨s1, _ | ⟨s2, t⟩⟩
    · left; rfl
    · left; rfl
    · by_cases hr : (inRange (if b = 0xE0 then 0xA0 else 0x80) (if b = 0xED then 0x9F else 0xBF) s1
            && inRange 0x80 0xBF s2) = true
      · right; right; left
        have hr' := Bool.and_eq_true_iff.mp hr
        have hr1 := (inRange_iff _ _ _).mp hr'.1
        have hr2 := (inRange_iff _ _ _).mp hr'.2
        refine ⟨s1, s2, t, rfl, ?_, ?_, hr2.1, hr2.2, by omega, h3, ?_⟩
        · have := hr1.1
          split_ifs at this <;> omega
        · have := hr1.2
          split_ifs at this <;> omega
        · simp only [hr, if_true]
      · left
        simp only [hr, Bool.false_eq_true, if_false]
  rw [if_neg h3]
  by_cases h4 : b < 0xF5
  · rw [if_pos h4]
    rcases rest with _ | ⟨s1, _ | ⟨s2, _ | ⟨s3, t⟩⟩⟩
    · left; rfl
    · left; rfl
    · left; rfl
    · by_cases hr : (inRange (if b = 0xF0 then 0x90 else 0x80) (if b = 0xF4 then 0x8F else 0xBF) s1
            && inRange 0x80 0xBF s2 && inRange 0x80 0xBF s3) = true
      · right; right; right
        have hr' := Bool.and_eq_true_iff.mp hr
        have hr12 := Bool.and_eq_true_iff.mp hr'.1
        have hr1 := (inRange_iff _ _ _).mp hr12.1
        have hr2 := (inRange_iff _ _ _).mp hr12.2
        have hr3 := (inRange_iff _ _ _).mp hr'.2
        refine ⟨s1, s2, s3, t, rfl, ?_, ?_, hr2.1, hr2.2, hr3.1, hr3.2, by omega, h4, ?_, ?_⟩
        · have := hr1.1
          split_ifs at this <;> omega
        · have := hr1.2
          split_ifs at this <;> omega
        · intro hb0
          have := hr1.1
          rw [if_pos hb0] at this
          exact this
        · simp only [hr, if_true]
      · left
        simp only [hr, Bool.false_eq_true, if_false]
  · left
    rw [if_neg h4]

theorem readStringBody_quote (Y : List Nat) : readStringBody (0x22 :: Y) = some ([], Y) := by
  rw [readStringBody_cons, if_pos rfl]

theorem readStringBody_replacement (X : List Nat) :
    readStringBody ([0x5C, 0x75, 0x66, 0x66, 0x66, 0x64] ++ X)
      = (readStringBody X).map fun p => ([0xEF, 0xBF, 0xBD] ++ p.1, p.2) := by
  simp [readStringBody_cons, hexValue, utf8Encode]

theorem readStringBody_lineSep (X : List Nat) :
    readStringBody ([0x5C, 0x75, 0x32, 0x30, 0x32, 0x38] ++ X)
      = (readStringBody X).map fun p => ([0xE2, 0x80, 0xA8] ++ p.1, p.2) := by
  simp [readStringBody_cons, hexValue, utf8Encode]

theorem readStringBody_parSep (X : List Nat) :
    readStringBody ([0x5C, 0x75, 0x32, 0x30, 0x32, 0x39] ++ X)
      = (readStringBody X).map fun p => ([0xE2, 0x80, 0xA9] ++ p.1, p.2) := by
  simp [readStringBody_cons, hexValue, utf8Encode]

/-- Reading back what `appendString` wrote gives the string, with U+FFFD in the
place of every invalid byte. -/
theorem readStringBody_appendStringLoop (fuel : Nat) : ∀ (s Y : List Nat),
    readStringBody (appendStringLoop fuel s ++ 0x22 :: Y) = some (toValidUTF8Loop fuel s, Y) := by
  induction fuel with
  | zero =>
    intro s Y
    exact readStringBody_quote Y
  | succ fuel ih =>
    intro s Y
    cases s with
    | nil => exact readStringBody_quote Y
    | cons b rest =>
      rw [appendStringLoop_cons, toValidUTF8Loop_cons]
      by_cases hb : b < 0x80
      · have hne : ¬ b = RuneError := by
          unfold RuneError
          omega
        rw [if_pos hb, decodeRune_ascii b rest hb]
        simp only [hne, false_and, if_false]
        rw [List.append_assoc, readStringBody_escapeAscii b _ hb, ih]
        rfl
      · rw [if_neg hb]
        rcases decodeRune_cases b rest hb with h | ⟨s1, t, rfl, h1, h2, h3, h4, h⟩
          | ⟨s1, s2, t, rfl, h1, h2, h3, h4, h5, h6, h⟩
          | ⟨s1, s2, s3, t, rfl, h1, h2, h3, h4, h5, h6, h7, h8, h9, h⟩
        · rw [h]
          simp only [and_self, if_true]
          rw [List.append_assoc, readStringBody_replacement, ih]
          rfl
        · rw [h]
          have hc1 : ¬ ((b % 0x20) * 0x40 + s1 % 0x40 = RuneError ∧ 2 = 1) := by
            intro hh
            exact absurd hh.2 (by decide)
          have hc2 : ¬ ((b % 0x20) * 0x40 + s1 % 0x40 = 0x2028
              ∨ (b % 0x20) * 0x40 + s1 % 0x40 = 0x2029) := by omega
          simp only [hc1, hc2, if_false]
          have hv : ∀ x ∈ [b, s1], 0x80 ≤ x := by
            intro x hx
            simp only [List.mem_cons, List.mem_singleton, List.not_mem_nil, or_false] at hx
            rcases hx with rfl | rfl <;> omega
          show readStringBody (([b, s1] ++ appendStringLoop fuel t) ++ 0x22 :: Y) = _
          rw [List.append_assoc, readStringBody_verbatim _ _ hv, ih]
          rfl
        · rw [h]
          have hc1 : ¬ ((b % 0x10) * 0x1000 + (s1 % 0x40) * 0x40 + s2 % 0x40 = RuneError
              ∧ 3 = 1) := by
            intro hh
            exact absurd hh.2 (by decide)
          simp only [hc1, if_false]
          by_cases hl : (b % 0x10) * 0x1000 + (s1 % 0x40) * 0x40 + s2 % 0x40 = 0x2028
          · have hb' : b = 0xE2 := by omega
            have hs1 : s1 = 0x80 := by omega
            have hs2 : s2 = 0xA8 := by omega
            subst hb' hs1 hs2
            show readStringBody (([0x5C, 0x75, 0x32, 0x30, 0x32, 0x38] ++ appendStringLoop fuel t)
              ++ 0x22 :: Y) = _
            rw [List.append_assoc, readStringBody_lineSep, ih]
            rfl
          · by_cases hp : (b % 0x10) * 0x1000 + (s1 % 0x40) * 0x40 + s2 % 0x40 = 0x2029
            · have hb' : b = 0xE2 := by omega
              have hs1 : s1 = 0x80 := by omega
              have hs2 : s2 = 0xA9 := by omega
              subst hb' hs1 hs2
              show readStringBody (([0x5C, 0x75, 0x32, 0x30, 0x32, 0x39]
                ++ appendStringLoop fuel t) ++ 0x22 :: Y) = _
              rw [List.append_assoc, readStringBody_parSep, ih]
              rfl
            · have hc2 : ¬ ((b % 0x10) * 0x1000 + (s1 % 0x40) * 0x40 + s2 % 0x40 = 0x2028
                  ∨ (b % 0x10) * 0x1000 + (s1 % 0x40) * 0x40 + s2 % 0x40 = 0x2029) := by
                intro hh
                rcases hh with hh | hh
                · exact hl hh
                · exact hp hh
              simp only [hc2, if_false]
              have hv : ∀ x ∈ [b, s1, s2], 0x80 ≤ x := by
                intro x hx
                simp only [List.mem_cons, List.mem_singleton, List.not_mem_nil, or_false] at hx
                rcases hx with rfl | rfl | rfl <;> omega
              show readStringBody (([b, s1, s2] ++ appendStringLoop fuel t) ++ 0x22 :: Y) = _
              rw [List.append_assoc, readStringBody_verbatim _ _ hv, ih]
              rfl
        · rw [h]
          have hc1 : ¬ ((b % 0x08) * 0x40000 + (s1 % 0x40) * 0x1000 + (s2 % 0x40) * 0x40
              + s3 % 0x40 = RuneError ∧ 4 = 1) := by
            intro hh
            exact absurd hh.2 (by decide)
          have hc2 : ¬ ((b % 0x08) * 0x40000 + (s1 % 0x40) * 0x1000 + (s2 % 0x40) * 0x40
              + s3 % 0x40 = 0x2028 ∨ (b % 0x08) * 0x40000 + (s1 % 0x40) * 0x1000
              + (s2 % 0x40) * 0x40 + s3 % 0x40 = 0x2029) := by
            by_cases hb0 : b = 0xF0
            · have := h9 hb0
              omega
            · omega
          simp only [hc1, hc2, if_false]
          have hv : ∀ x ∈ [b, s1, s2, s3], 0x80 ≤ x := by
            intro x hx
            simp only [List.mem_cons, List.mem_singleton, List.not_mem_nil, or_false] at hx
            rcases hx with rfl | rfl | rfl | rfl <;> omega
          show readStringBody (([b, s1, s2, s3] ++ appendStringLoop fuel t) ++ 0x22 :: Y) = _
          rw [List.append_assoc, readStringBody_verbatim _ _ hv, ih]
          rfl

theorem decodeRune_size_pos (b : Nat) (rest : List Nat) : 1 ≤ (decodeRune (b :: rest)).2 := by
  by_cases hb : b < 0x80
  · rw [decodeRune_ascii b rest hb]
  · rcases decodeRune_cases b rest hb with h | ⟨s1, t, _, _, _, _, _, h⟩
      | ⟨s1, s2, t, _, _, _, _, _, _, _, h⟩
      | ⟨s1, s2, s3, t, _, _, _, _, _, _, _, _, _, _, h⟩ <;> rw [h] <;> simp

theorem validUTF8Loop_cons (fuel b : Nat) (rest : List Nat) :
    validUTF8Loop (fuel + 1) (b :: rest) =
      if (decodeRune (b :: rest)).1 = RuneError ∧ (decodeRune (b :: rest)).2 = 1 then false
      else validUTF8Loop fuel (rest.drop ((decodeRune (b :: rest)).2 - 1)) := rfl

theorem toValidUTF8Loop_of_valid (fuel : Nat) : ∀ s : List Nat, s.length ≤ fuel →
    validUTF8Loop fuel s = true → toValidUTF8Loop fuel s = s := by
  induction fuel with
  | zero =>
    intro s hlen _
    have : s = [] := List.length_eq_zero.mp (Nat.le_zero.mp hlen)
    subst this
    rfl
  | succ fuel ih =>
    intro s hlen hv
    cases s with
    | nil => rfl
    | cons b rest =>
      rw [validUTF8Loop_cons] at hv
      rw [toValidUTF8Loop_cons]
      by_cases hbad : (decodeRune (b :: rest)).1 = RuneError ∧ (decodeRune (b :: rest)).2 = 1
      · rw [if_pos hbad] at hv
        exact absurd hv (by decide)
      · rw [if_neg hbad] at hv
        rw [if_neg hbad]
        have hpos := decodeRune_size_pos b rest
        have hlen' : (rest.drop ((decodeRune (b :: rest)).2 - 1)).length ≤ fuel := by
          rw [List.length_drop]
          rw [List.length_cons] at hlen
          omega
        rw [ih _ hlen' hv]
        obtain ⟨k, hk⟩ : ∃ k, (decodeRune (b :: rest)).2 = k + 1 :=
          ⟨(decodeRune (b :: rest)).2 - 1, by omega⟩
        rw [hk, Nat.add_sub_cancel, List.take_succ_cons, List.cons_append, List.take_append_drop]

/-- A string that is valid UTF-8 is left as it is. -/
theorem toValidUTF8_of_valid (s : List Nat) (h : validUTF8 s = true) : toValidUTF8 s = s :=
  toValidUTF8Loop_of_valid s.length s (le_refl _) h

/-- The loop of `appendString` does not depend on its fuel once that covers the source. -/
theorem appendStringLoop_fuel (f1 : Nat) : ∀ (f2 : Nat) (s : List Nat), s.length ≤ f1 →
    s.length ≤ f2 → appendStringLoop f1 s = appendStringLoop f2 s := by
  induction f1 with
  | zero =>
    intro f2 s h1 _
    have hs : s = [] := List.length_eq_zero.mp (Nat.le_zero.mp h1)
    subst hs
    cases f2 <;> rfl
  | succ f1 ih =>
    intro f2 s h1 h2
    cases s with
    | nil => cases f2 <;> rfl
    | cons b rest =>
      cases f2 with
      | zero => exact absurd h2 (by simp)
      | succ f2 =>
        rw [List.length_cons] at h1 h2
        have e1 := ih f2 rest (by omega) (by omega)
        have e2 := ih f2 (rest.drop ((decodeRune (b :: rest)).2 - 1))
          (by rw [List.length_drop]; omega) (by rw [List.length_drop]; omega)
        rw [appendStringLoop_cons, appendStringLoop_cons, e1, e2]

/-- The replacement loop does not depend on its fuel once that covers the string. -/
theorem toValidUTF8Loop_fuel (f1 : Nat) : ∀ (f2 : Nat) (s : List Nat), s.length ≤ f1 →
    s.length ≤ f2 → toValidUTF8Loop f1 s = toValidUTF8Loop f2 s := by
  induction f1 with
  | zero =>
    intro f2 s h1 _
    have hs : s = [] := List.length_eq_zero.mp (Nat.le_zero.mp h1)
    subst hs
    cases f2 <;> rfl
  | succ f1 ih =>
    intro f2 s h1 h2
    cases s with
    | nil => cases f2 <;> rfl
    | cons b rest =>
      cases f2 with
      | zero => exact absurd h2 (by simp)
      | succ f2 =>
        rw [List.length_cons] at h1 h2
        have e1 := ih f2 rest (by omega) (by omega)
        have e2 := ih f2 (rest.drop ((decodeRune (b :: rest)).2 - 1))
          (by rw [List.length_drop]; omega) (by rw [List.length_drop]; omega)
        rw [toValidUTF8Loop_cons, toValidUTF8Loop_cons, e1, e2]

/-- Reading back a quoted string written by `appendString`. -/
theorem readStringBody_appendString (s Y : List Nat) :
    readStringBody (appendStringLoop s.length s ++ 0x22 :: Y) = some (toValidUTF8 s, Y) :=
  readStringBody_appendStringLoop s.length s Y

theorem readStringBody_key (key Y : List Nat) (h : key.all plainByte = true) :
    readStringBody (key ++ 0x22 :: Y) = some (key, Y) := by
  induction key with
  | nil => exact readStringBody_quote Y
  | cons x xs ih =>
    rw [List.all_cons, Bool.and_eq_true] at h
    have hx := h.1
    simp only [plainByte, Bool.and_eq_true, decide_eq_true_eq, bne_iff_ne, ne_eq] at hx
    rw [List.cons_append, readStringBody_plain x _ hx.1.2 hx.2 (by omega), ih h.2]
    rfl

theorem readMembers_succ (fuel : Nat) (s : List Nat) :
    readMembers (fuel + 1) s =
    match s with
    | 0x22 :: rest =>
      match readStringBody rest with
      | some (key, 0x3A :: rest1) =>
        match readValue rest1 with
        | some (v, [0x7D]) => some [(key, v)]
        | some (v, 0x2C :: rest2) => (readMembers fuel rest2).map fun ms => (key, v) :: ms
        | _ => none
      | _ => none
    | _ => none := rfl

theorem readValue_string (s Y : List Nat) :
    readValue (0x22 :: (appendStringLoop s.length s ++ 0x22 :: Y))
      = some (.str (toValidUTF8 s), Y) := by
  rw [readValue]
  simp only [if_true]
  rw [readStringBody_appendString]
  rfl

theorem bigIntText_head (m : Int) (Y : List Nat) :
    ∃ c t, bigIntText m ++ Y = c :: t ∧ c ≠ 0x22 := by
  cases m with
  | ofNat n =>
    obtain ⟨ds, h1, h2, h3, _, _⟩ := natText_spec n
    obtain ⟨d, ds', rfl⟩ := List.exists_cons_of_ne_nil h3
    refine ⟨d, ds' ++ Y, ?_, ?_⟩
    · rw [bigIntText, h1, List.cons_append]
    · intro hd
      have := h2 d (List.mem_cons_self _ _)
      rw [hd] at this
      exact absurd this (by decide)
  | negSucc n =>
    exact ⟨0x2D, natText (n + 1) ++ Y, rfl, by decide⟩

theorem readValue_int (m : Int) (Y : List Nat) :
    readValue (bigIntText m ++ 0x2C :: Y) = some (.num m, 0x2C :: Y) := by
  obtain ⟨c, t, hct, hc⟩ := bigIntText_head m (0x2C :: Y)
  have hr := readInt_bigIntText m Y
  rw [hct] at hr ⊢
  rw [readValue]
  simp only [hc, if_false]
  rw [hr]
  rfl

theorem readMembers_string_mid (fuel : Nat) (key s Y : List Nat) (h : key.all plainByte = true) :
    readMembers (fuel + 1)
        (0x22 :: (key ++ 0x22 :: 0x3A :: 0x22 :: (appendStringLoop s.length s ++ 0x22 :: 0x2C :: Y)))
      = (readMembers fuel Y).map fun ms => (key, JsonValue.str (toValidUTF8 s)) :: ms := by
  rw [readMembers_succ]
  simp only
  rw [readStringBody_key key _ h]
  simp only
  rw [readValue_string]

theorem readMembers_string_last (fuel : Nat) (key s : List Nat) (h : key.all plainByte = true) :
    readMembers (fuel + 1)
        (0x22 :: (key ++ 0x22 :: 0x3A :: 0x22 :: (appendStringLoop s.length s ++ 0x22 :: [0x7D])))
      = some [(key, JsonValue.str (toValidUTF8 s))] := by
  rw [readMembers_succ]
  simp only
  rw [readStringBody_key key _ h]
  simp only
  rw [readValue_string]

theorem readMembers_int_mid (fuel : Nat) (key : List Nat) (m : Int) (Y : List Nat)
    (h : key.all plainByte = true) :
    readMembers (fuel + 1) (0x22 :: (key ++ 0x22 :: 0x3A :: (bigIntText m ++ 0x2C :: Y)))
      = (readMembers fuel Y).map fun ms => (key, JsonValue.num m) :: ms := by
  rw [readMembers_succ]
  simp only
  rw [readStringBody_key key _ h]
  simp only
  rw [readValue_int]

theorem pfsenseJSON_shape (a b c : List Nat) :
    pfsenseJSON ⟨a, b, c⟩ = 0x7B :: 0x22 :: (ascii "Intf1" ++ 0x22 :: 0x3A :: 0x22 ::
      (appendStringLoop a.length a ++ 0x22 :: 0x2C :: 0x22 :: (ascii "Intf2" ++ 0x22 :: 0x3A ::
        0x22 :: (appendStringLoop b.length b ++ 0x22 :: 0x2C :: 0x22 :: (ascii "Intf3" ++ 0x22 ::
          0x3A :: 0x22 :: (appendStringLoop c.length c ++ 0x22 :: [0x7D])))))) := by
  have h1 : ascii "\x7b\"Intf1\":" = 0x7B :: 0x22 :: (ascii "Intf1" ++ [0x22, 0x3A]) := by decide
  have h2 : ascii ",\"Intf2\":" = 0x2C :: 0x22 :: (ascii "Intf2" ++ [0x22, 0x3A]) := by decide
  have h3 : ascii ",\"Intf3\":" = 0x2C :: 0x22 :: (ascii "Intf3" ++ [0x22, 0x3A]) := by decide
  have h4 : ascii "\x7d" = [0x7D] := by decide
  rw [pfsenseJSON, h1, h2, h3, h4]
  simp only [appendString, List.append_assoc, List.cons_append, List.nil_append]

theorem avtechJSON_shape (m n : Int) (l : List Nat) :
    avtechJSON ⟨m, n, l⟩ = 0x7B :: 0x22 :: (ascii "Celcius" ++ 0x22 :: 0x3A ::
      (bigIntText m ++ 0x2C :: 0x22 :: (ascii "Fahrenheit" ++ 0x22 :: 0x3A ::
        (bigIntText n ++ 0x2C :: 0x22 :: (ascii "Label" ++ 0x22 ::
          0x3A :: 0x22 :: (appendStringLoop l.length l ++ 0x22 :: [0x7D])))))) := by
  have h1 : ascii "\x7b\"Celcius\":" = 0x7B :: 0x22 :: (ascii "Celcius" ++ [0x22, 0x3A]) := by
    decide
  have h2 : ascii ",\"Fahrenheit\":" = 0x2C :: 0x22 :: (ascii "Fahrenheit" ++ [0x22, 0x3A]) := by
    decide
  have h3 : ascii ",\"Label\":" = 0x2C :: 0x22 :: (ascii "Label" ++ [0x22, 0x3A]) := by decide
  have h4 : ascii "\x7d" = [0x7D] := by decide
  rw [avtechJSON, h1, h2, h3, h4]
  simp only [appendString, List.append_assoc, List.cons_append, List.nil_append]

theorem readObject_of_fuel (rest : List Nat) (f : Nat) (h : rest.length = f + 3) :
    readObject (0x7B :: rest) = readMembers (f + 3) rest := by
  rw [readObject, h]

/-- What a subscriber reads out of a class A payload. -/
theorem readObject_pfsenseJSON (a b c : List Nat) :
    readObject (pfsenseJSON ⟨a, b, c⟩)
      = some [(ascii "Intf1", .str (toValidUTF8 a)), (ascii "Intf2", .str (toValidUTF8 b)),
          (ascii "Intf3", .str (toValidUTF8 c))] := by
  rw [pfsenseJSON_shape]
  rw [readObject_of_fuel _ ((appendStringLoop a.length a).length
    + (appendStringLoop b.length b).length + (appendStringLoop c.length c).length + 30)
    (by simp [ascii]; omega)]
  rw [readMembers_string_mid _ _ _ _ (by decide), readMembers_string_mid _ _ _ _ (by decide),
    readMembers_string_last _ _ _ (by decide)]
  rfl

/-- What a subscriber reads out of a class B payload. -/
theorem readObject_avtechJSON (m n : Int) (l : List Nat) :
    readObject (avtechJSON ⟨m, n, l⟩)
      = some [(ascii "Celcius", .num m), (ascii "Fahrenheit", .num n),
          (ascii "Label", .str (toValidUTF8 l))] := by
  rw [avtechJSON_shape]
  rw [readObject_of_fuel _ ((bigIntText m).length
    + (bigIntText n).length + (appendStringLoop l.length l).length + 33)
    (by simp [ascii]; omega)]
  rw [readMembers_int_mid _ _ _ _ (by decide), readMembers_int_mid _ _ _ _ (by decide),
    readMembers_string_last _ _ _ (by decide)]
  rfl

/-! ## The decoders -/

theorem index_of_valueAt (pkt : SnmpPacket) (i : Nat) (val : Value)
    (h : valueAt pkt i = some val) :
    ∃ pdu, index pkt.Variables i = .ok pdu ∧ pdu.Value = val := by
  unfold valueAt at h
  cases hv : pkt.Variables[i]? with
  | none =>
    rw [hv] at h
    exact absurd h (by simp)
  | some pdu =>
    rw [hv] at h
    refine ⟨pdu, ?_, Option.some.inj h⟩
    unfold index
    rw [hv]

theorem index_of_valueAt_none (pkt : SnmpPacket) (i : Nat) (h : valueAt pkt i = none) :
    index pkt.Variables i = .error (.indexOutOfRange i pkt.Variables.length) := by
  unfold valueAt at h
  cases hv : pkt.Variables[i]? with
  | none =>
    unfold index
    rw [hv]
  | some pdu =>
    rw [hv] at h
    exact absurd h (by simp)

theorem bind_ok {α β : Type} (a : α) (f : α → Except Panic β) :
    (Except.ok a >>= f) = f a := rfl

theorem bind_error {α β : Type} (p : Panic) (f : α → Except Panic β) :
    ((Except.error p : Except Panic α) >>= f) = .error p := rfl

/-- The body of `parsePfsenseSnmp` on a non-nil packet, one field after the other. -/
theorem parsePfsenseSnmp_eq (json : JsonLib) (pkt : SnmpPacket) :
    parsePfsenseSnmp json (some pkt) =
      ((index pkt.Variables 0 >>= fun v => assertBytes v.Value) >>= fun a =>
        (index pkt.Variables 1 >>= fun v => assertBytes v.Value) >>= fun b =>
          (index pkt.Variables 2 >>= fun v => assertBytes v.Value) >>= fun c =>
            Except.ok (marshalledText (json.marshalPfsense ⟨a, b, c⟩))) := rfl

/-- The body of `parseAvtechData` on a non-nil packet, one field after the other. -/
theorem parseAvtechData_eq (json : JsonLib) (pkt : SnmpPacket) :
    parseAvtechData json (some pkt) =
      ((index pkt.Variables 0 >>= fun v => Except.ok (ToBigInt v.Value)) >>= fun m =>
        (index pkt.Variables 1 >>= fun v => Except.ok (ToBigInt v.Value)) >>= fun n =>
          (index pkt.Variables 2 >>= fun v => assertBytes v.Value) >>= fun l =>
            Except.ok (marshalledText (json.marshalAvtech ⟨m, n, l⟩))) := rfl

theorem field_of_valueAt (pkt : SnmpPacket) (i : Nat) (a : List Nat)
    (h : valueAt pkt i = some (.bytes a)) :
    (index pkt.Variables i >>= fun v => assertBytes v.Value) = .ok a := by
  obtain ⟨pdu, h1, h2⟩ := index_of_valueAt pkt i _ h
  rw [h1]
  show assertBytes pdu.Value = .ok a
  rw [h2]
  rfl

theorem field_of_not_bytes (pkt : SnmpPacket) (i : Nat)
    (h : valueAt pkt i = none ∨ ∃ v, valueAt pkt i = some v ∧ v.isBytes = false) :
    ∃ p, (index pkt.Variables i >>= fun v => assertBytes v.Value) = .error p := by
  rcases h with h | ⟨v, h, hv⟩
  · rw [index_of_valueAt_none pkt i h]
    exact ⟨_, rfl⟩
  · obtain ⟨pdu, h1, h2⟩ := index_of_valueAt pkt i _ h
    rw [h1]
    refine ⟨.typeAssertion, ?_⟩
    show assertBytes pdu.Value = _
    rw [h2]
    cases v <;> first | rfl | exact absurd hv (Bool.noConfusion)

/-- What `parsePfsenseSnmp` returns on three octet strings, whatever `json.Marshal` is. -/
theorem parsePfsenseSnmp_of_bytes (json : JsonLib) (pkt : SnmpPacket) (a b c : List Nat)
    (h0 : valueAt pkt 0 = some (.bytes a)) (h1 : valueAt pkt 1 = some (.bytes b))
    (h2 : valueAt pkt 2 = some (.bytes c)) :
    parsePfsenseSnmp json (some pkt) = .ok (marshalledText (json.marshalPfsense ⟨a, b, c⟩)) := by
  rw [parsePfsenseSnmp_eq, field_of_valueAt pkt 0 a h0, field_of_valueAt pkt 1 b h1,
    field_of_valueAt pkt 2 c h2]
  rfl

/-- What `parseAvtechData` returns on two values and an octet string, whatever
`json.Marshal` is. -/
theorem parseAvtechData_of_values (json : JsonLib) (pkt : SnmpPacket) (v0 v1 : Value)
    (l : List Nat) (h0 : valueAt pkt 0 = some v0) (h1 : valueAt pkt 1 = some v1)
    (h2 : valueAt pkt 2 = some (.bytes l)) :
    parseAvtechData json (some pkt)
      = .ok (marshalledText (json.marshalAvtech ⟨ToBigInt v0, ToBigInt v1, l⟩)) := by
  obtain ⟨p0, hp0, hv0⟩ := index_of_valueAt pkt 0 _ h0
  obtain ⟨p1, hp1, hv1⟩ := index_of_valueAt pkt 1 _ h1
  rw [parseAvtechData_eq, hp0, hp1, field_of_valueAt pkt 2 l h2]
  simp only [bind_ok, hv0, hv1]

theorem toInt64_natCast (u : Nat) (h : (u : Int) < 2 ^ 63) : toInt64 (u : Int) = (u : Int) :=
  toInt64_of_inRange _ (by omega) h

theorem ToBigInt_of_integer (v : Value) (m : Int) (h : v.integer? = some m)
    (h1 : -2 ^ 63 ≤ m) (h2 : m < 2 ^ 63) : ToBigInt v = m := by
  cases v with
  | nil => exact Option.noConfusion h
  | bytes b => exact Option.noConfusion h
  | string s => exact Option.noConfusion h
  | other => exact Option.noConfusion h
  | int i => cases Option.some.inj h; exact toInt64_of_inRange _ h1 h2
  | int8 i => cases Option.some.inj h; exact toInt64_of_inRange _ h1 h2
  | int16 i => cases Option.some.inj h; exact toInt64_of_inRange _ h1 h2
  | int32 i => cases Option.some.inj h; exact toInt64_of_inRange _ h1 h2
  | int64 i => cases Option.some.inj h; exact toInt64_of_inRange _ h1 h2
  | uint u => cases Option.some.inj h; exact toInt64_natCast u h2
  | uint8 u => cases Option.some.inj h; exact toInt64_natCast u h2
  | uint16 u => cases Option.some.inj h; exact toInt64_natCast u h2
  | uint32 u => cases Option.some.inj h; exact toInt64_natCast u h2
  | uint64 u =>
    cases Option.some.inj h
    show ((u % 2 ^ 64 : Nat) : Int) = (u : Int)
    have hu : u < 2 ^ 64 := by omega
    rw [Nat.mod_eq_of_lt hu]

/-- C1 (amended): for every raw sample with at least three variables whose
values at positions 0, 1 and 2 are octet strings `a`, `b`, `c` that are valid
UTF-8, `parsePfsenseSnmp` returns the JSON object text with exactly the keys
`Intf1`, `Intf2`, `Intf3` in that order, whose string values are exactly `a`, `b`
and `c`; the text is a function of `a`, `b`, `c` alone. -/
theorem parsePfsenseSnmp_payload (pkt : SnmpPacket) (a b c : List Nat)
    (h0 : valueAt pkt 0 = some (.bytes a)) (h1 : valueAt pkt 1 = some (.bytes b))
    (h2 : valueAt pkt 2 = some (.bytes c))
    (ha : validUTF8 a = true) (hb : validUTF8 b = true) (hc : validUTF8 c = true) :
    parsePfsenseSnmp encodingJson (some pkt) = .ok (pfsenseJSON ⟨a, b, c⟩)
    ∧ readObject (pfsenseJSON ⟨a, b, c⟩)
        = some [(ascii "Intf1", .str a), (ascii "Intf2", .str b), (ascii "Intf3", .str c)] := by
  refine ⟨parsePfsenseSnmp_of_bytes encodingJson pkt a b c h0 h1 h2, ?_⟩
  rw [readObject_pfsenseJSON, toValidUTF8_of_valid a ha, toValidUTF8_of_valid b hb,
    toValidUTF8_of_valid c hc]

/-- C1, at the sample of the specification: the payload for
`[("o1","up"),("o2","down"),("o3","up")]`. -/
theorem parsePfsenseSnmp_payload_example :
    parsePfsenseSnmp encodingJson (some sampleUpDownUp)
      = .ok (ascii "\x7b\"Intf1\":\"up\",\"Intf2\":\"down\",\"Intf3\":\"up\"\x7d")
    ∧ readObject (ascii "\x7b\"Intf1\":\"up\",\"Intf2\":\"down\",\"Intf3\":\"up\"\x7d")
        = some [(ascii "Intf1", .str (ascii "up")), (ascii "Intf2", .str (ascii "down")),
            (ascii "Intf3", .str (ascii "up"))] :=
  parsePfsenseSnmp_payload sampleUpDownUp (ascii "up") (ascii "down") (ascii "up")
    (by decide) (by decide) (by decide) (by decide) (by decide) (by decide)

/-- C1 as stated fails: on the octet string made of the byte 0xFF the payload
carries the escape for U+FFFD, and its string value is not the octet string. -/
theorem parsePfsenseSnmp_invalid_utf8 :
    valueAt sampleInvalidText 0 = some (.bytes [0xFF])
    ∧ parsePfsenseSnmp encodingJson (some sampleInvalidText)
      = .ok (ascii "\x7b\"Intf1\":\"\\ufffd\",\"Intf2\":\"down\",\"Intf3\":\"up\"\x7d")
    ∧ readObject (ascii "\x7b\"Intf1\":\"\\ufffd\",\"Intf2\":\"down\",\"Intf3\":\"up\"\x7d")
        = some [(ascii "Intf1", .str [0xEF, 0xBF, 0xBD]), (ascii "Intf2", .str (ascii "down")),
            (ascii "Intf3", .str (ascii "up"))]
    ∧ readObject (ascii "\x7b\"Intf1\":\"\\ufffd\",\"Intf2\":\"down\",\"Intf3\":\"up\"\x7d")
        ≠ some [(ascii "Intf1", .str [0xFF]), (ascii "Intf2", .str (ascii "down")),
            (ascii "Intf3", .str (ascii "up"))] := by
  decide

theorem ToBigInt_of_holdsWithin64 (v : Value) (m : Int) (h : holdsWithin64 v m) :
    ToBigInt v = m := by
  rcases h with ⟨hm, ⟨h1, h2⟩ | ⟨u, rfl, hu⟩⟩
  · exact ToBigInt_of_integer v m hm h1 h2
  · cases Option.some.inj hm
    show ((u % 2 ^ 64 : Nat) : Int) = (u : Int)
    rw [Nat.mod_eq_of_lt hu]

/-- C2 (amended): for every raw sample with at least three variables whose
values at positions 0 and 1 are of a Go integer type and hold `m` and `n`, each
within the signed 64-bit range or a `uint64` (up to 2^64 - 1), and whose value
at position 2 is an octet string `l` that is valid UTF-8, `parseAvtechData`
returns the object with `Celcius`, `Fahrenheit` and `Label` in that order, `m`
and `n` written as their exact decimal integers, and reading the payload back
gives `m`, `n` and `l`. Only an unsigned value of 2^63 or more that is not a
`uint64` is left out. -/
theorem parseAvtechData_payload (pkt : SnmpPacket) (v0 v1 : Value) (m n : Int) (l : List Nat)
    (h0 : valueAt pkt 0 = some v0) (h1 : valueAt pkt 1 = some v1)
    (h2 : valueAt pkt 2 = some (.bytes l))
    (hm : holdsWithin64 v0 m) (hn : holdsWithin64 v1 n)
    (hl : validUTF8 l = true) :
    parseAvtechData encodingJson (some pkt) = .ok (avtechJSON ⟨m, n, l⟩)
    ∧ avtechJSON ⟨m, n, l⟩ = ascii "\x7b\"Celcius\":" ++ bigIntText m
        ++ ascii ",\"Fahrenheit\":" ++ bigIntText n
        ++ ascii ",\"Label\":" ++ appendString l ++ ascii "\x7d"
    ∧ readObject (avtechJSON ⟨m, n, l⟩)
        = some [(ascii "Celcius", .num m), (ascii "Fahrenheit", .num n),
            (ascii "Label", .str l)] := by
  refine ⟨?_, rfl, ?_⟩
  · rw [parseAvtechData_of_values encodingJson pkt v0 v1 l h0 h1 h2,
      ToBigInt_of_holdsWithin64 v0 m hm, ToBigInt_of_holdsWithin64 v1 n hn]
    rfl
  · rw [readObject_avtechJSON, toValidUTF8_of_valid l hl]

/-- C2, at the values of the specification, `(250, 770, "SensorA")`, and at a
`Counter64` of 2^64 - 1 next to a negative reading. -/
theorem parseAvtechData_payload_example :
    (parseAvtechData encodingJson (some sampleSensorA)
      = .ok (ascii "\x7b\"Celcius\":250,\"Fahrenheit\":770,\"Label\":\"SensorA\"\x7d")
    ∧ readObject (ascii "\x7b\"Celcius\":250,\"Fahrenheit\":770,\"Label\":\"SensorA\"\x7d")
        = some [(ascii "Celcius", .num 250), (ascii "Fahrenheit", .num 770),
            (ascii "Label", .str (ascii "SensorA"))])
    ∧ (parseAvtechData encodingJson (some sampleCounter64)
      = .ok (ascii
          "\x7b\"Celcius\":18446744073709551615,\"Fahrenheit\":-40,\"Label\":\"SensorA\"\x7d")
    ∧ readObject (ascii
          "\x7b\"Celcius\":18446744073709551615,\"Fahrenheit\":-40,\"Label\":\"SensorA\"\x7d")
        = some [(ascii "Celcius", .num (2 ^ 64 - 1)), (ascii "Fahrenheit", .num (-40)),
            (ascii "Label", .str (ascii "SensorA"))]) :=
  have h := parseAvtechData_payload sampleSensorA (.int 250) (.int 770) 250 770 (ascii "SensorA")
    (by decide) (by decide) (by decide) ⟨rfl, Or.inl ⟨by decide, by decide⟩⟩
    ⟨rfl, Or.inl ⟨by decide, by decide⟩⟩ (by decide)
  have g := parseAvtechData_payload sampleCounter64 (.uint64 (2 ^ 64 - 1)) (.int (-40))
    (2 ^ 64 - 1) (-40) (ascii "SensorA")
    (by decide) (by decide) (by decide) ⟨by decide, Or.inr ⟨2 ^ 64 - 1, rfl, by decide⟩⟩
    ⟨rfl, Or.inl ⟨by decide, by decide⟩⟩ (by decide)
  ⟨⟨h.1, h.2.2⟩, ⟨g.1.trans (by decide), g.2.2.symm ▸ (by decide)⟩⟩

/-- C2 as stated fails: the `uint` 2^63 at position 0 is written as
-9223372036854775808, and that is what reading the payload back gives. -/
theorem parseAvtechData_uint_wraps :
    valueAt sampleUintWrap 0 = some (.uint (2 ^ 63))
    ∧ parseAvtechData encodingJson (some sampleUintWrap)
      = .ok (ascii
          "\x7b\"Celcius\":-9223372036854775808,\"Fahrenheit\":770,\"Label\":\"SensorA\"\x7d")
    ∧ readObject (ascii
          "\x7b\"Celcius\":-9223372036854775808,\"Fahrenheit\":770,\"Label\":\"SensorA\"\x7d")
        = some [(ascii "Celcius", .num (-(2 ^ 63))), (ascii "Fahrenheit", .num 770),
            (ascii "Label", .str (ascii "SensorA"))]
    ∧ (-(2 ^ 63) : Int) ≠ 2 ^ 63 := by
  decide

set_option maxRecDepth 8000

/-- C6 (amended): decoding a raw sample that has fewer than three variables, or
whose value at one of positions 0 to 2 (class A) or at position 2 (class B) is
not an octet string, ends in a panic and returns no payload; a class B sample
with three variables and an octet string at position 2 is decoded whatever the
values at positions 0 and 1 are. -/
theorem decode_mismatch_panics (json : JsonLib) (pkt : SnmpPacket) :
    ((pkt.Variables.length < 3
        ∨ ∃ i v, i < 3 ∧ valueAt pkt i = some v ∧ v.isBytes = false)
      → ∃ p, parsePfsenseSnmp json (some pkt) = .error p)
    ∧ ((pkt.Variables.length < 3 ∨ ∃ v, valueAt pkt 2 = some v ∧ v.isBytes = false)
      → ∃ p, parseAvtechData json (some pkt) = .error p)
    ∧ (∀ v0 v1 l, valueAt pkt 0 = some v0 → valueAt pkt 1 = some v1
        → valueAt pkt 2 = some (.bytes l)
        → ∃ payload, parseAvtechData json (some pkt) = .ok payload) := by
  have hshort : pkt.Variables.length < 3 → valueAt pkt 2 = none := by
    intro h
    unfold valueAt
    rw [List.getElem?_eq_none (by omega)]
    rfl
  refine ⟨?_, ?_, ?_⟩
  · intro h
    have hbad : ∃ i, i < 3 ∧ ∃ p,
        (index pkt.Variables i >>= fun v => assertBytes v.Value) = .error p := by
      rcases h with h | ⟨i, v, hi, hv, hb⟩
      · exact ⟨2, by omega, field_of_not_bytes pkt 2 (Or.inl (hshort h))⟩
      · exact ⟨i, hi, field_of_not_bytes pkt i (Or.inr ⟨v, hv, hb⟩)⟩
    obtain ⟨i, hi, p, hp⟩ := hbad
    rw [parsePfsenseSnmp_eq]
    cases h0 : (index pkt.Variables 0 >>= fun v => assertBytes v.Value) with
    | error q => exact ⟨q, rfl⟩
    | ok a =>
      cases h1 : (index pkt.Variables 1 >>= fun v => assertBytes v.Value) with
      | error q => exact ⟨q, rfl⟩
      | ok b =>
        cases h2 : (index pkt.Variables 2 >>= fun v => assertBytes v.Value) with
        | error q => exact ⟨q, rfl⟩
        | ok c =>
          exfalso
          interval_cases i
          · rw [h0] at hp; exact Except.noConfusion hp
          · rw [h1] at hp; exact Except.noConfusion hp
          · rw [h2] at hp; exact Except.noConfusion hp
  · intro h
    have hbad : ∃ p, (index pkt.Variables 2 >>= fun v => assertBytes v.Value) = .error p := by
      rcases h with h | ⟨v, hv, hb⟩
      · exact field_of_not_bytes pkt 2 (Or.inl (hshort h))
      · exact field_of_not_bytes pkt 2 (Or.inr ⟨v, hv, hb⟩)
    obtain ⟨p, hp⟩ := hbad
    rw [parseAvtechData_eq, hp]
    cases (index pkt.Variables 0 >>= fun v => Except.ok (ToBigInt v.Value)) with
    | error q => exact ⟨q, rfl⟩
    | ok m =>
      cases (index pkt.Variables 1 >>= fun v => Except.ok (ToBigInt v.Value)) with
      | error q => exact ⟨q, rfl⟩
      | ok n => exact ⟨p, rfl⟩
  · intro v0 v1 l h0 h1 h2
    exact ⟨_, parseAvtechData_of_values json pkt v0 v1 l h0 h1 h2⟩

/-- C6, at a sample of two variables: neither decoder returns a payload. -/
theorem decode_mismatch_panics_example :
    (∃ p, parsePfsenseSnmp encodingJson (some sampleShort) = .error p)
    ∧ (∃ p, parseAvtechData encodingJson (some sampleShort) = .error p) :=
  ⟨(decode_mismatch_panics encodingJson sampleShort).1 (Or.inl (by decide)),
   (decode_mismatch_panics encodingJson sampleShort).2.1 (Or.inl (by decide))⟩

/-- C6 as stated fails: with an octet string where class B expects an integer,
`parseAvtechData` returns a payload, with 0 for that reading. -/
theorem parseAvtechData_text_for_number :
    valueAt sampleTextForNumber 0 = some (.bytes (ascii "x"))
    ∧ parseAvtechData encodingJson (some sampleTextForNumber)
      = .ok (ascii "\x7b\"Celcius\":0,\"Fahrenheit\":770,\"Label\":\"SensorA\"\x7d") := by
  decide

theorem valueAt_eq_none_iff (p : SnmpPacket) (i : Nat) :
    valueAt p i = none ↔ p.Variables.length ≤ i := by
  unfold valueAt
  rw [Option.map_eq_none', List.getElem?_eq_none_iff]

theorem index_bind_congr {β : Type} (f : Value → Except Panic β) (p q : SnmpPacket)
    (h : ∀ i, i < 3 → valueAt p i = valueAt q i) (i : Nat) (hi : i < 3) :
    (index p.Variables i >>= fun v => f v.Value) = (index q.Variables i >>= fun v => f v.Value) := by
  cases hv : valueAt p i with
  | none =>
    have hq : valueAt q i = none := by rw [← h i hi]; exact hv
    have hlen : p.Variables.length = q.Variables.length := by
      have e0 := h 0 (by omega)
      have e1 := h 1 (by omega)
      have e2 := h 2 (by omega)
      have p0 := valueAt_eq_none_iff p 0
      have p1 := valueAt_eq_none_iff p 1
      have p2 := valueAt_eq_none_iff p 2
      have q0 := valueAt_eq_none_iff q 0
      have q1 := valueAt_eq_none_iff q 1
      have q2 := valueAt_eq_none_iff q 2
      rw [e0] at p0
      rw [e1] at p1
      rw [e2] at p2
      have r0 := p0.symm.trans q0
      have r1 := p1.symm.trans q1
      have r2 := p2.symm.trans q2
      have hp := (valueAt_eq_none_iff p i).mp hv
      omega
    rw [index_of_valueAt_none p i hv, index_of_valueAt_none q i hq, hlen]
  | some v =>
    have hq : valueAt q i = some v := by rw [← h i hi]; exact hv
    obtain ⟨a, ha, hav⟩ := index_of_valueAt p i v hv
    obtain ⟨b, hb, hbv⟩ := index_of_valueAt q i v hq
    rw [ha, hb]
    show f a.Value = f b.Value
    rw [hav, hbv]

/-- C9: the payload of either decoder, and the publish call built from it,
depend on nothing but the values at positions 0 to 2: two samples that agree
there give the same result, whatever their names, type tags and further
variables are. -/
theorem decode_deterministic (json : JsonLib) (p q : SnmpPacket)
    (h : ∀ i, i < 3 → valueAt p i = valueAt q i) :
    parsePfsenseSnmp json (some p) = parsePfsenseSnmp json (some q)
    ∧ parseAvtechData json (some p) = parseAvtechData json (some q)
    ∧ (parsePfsenseSnmp json (some p)).map publish = (parsePfsenseSnmp json (some q)).map publish
    ∧ (parseAvtechData json (some p)).map publish
        = (parseAvtechData json (some q)).map publish := by
  have hA : parsePfsenseSnmp json (some p) = parsePfsenseSnmp json (some q) := by
    rw [parsePfsenseSnmp_eq, parsePfsenseSnmp_eq,
      index_bind_congr assertBytes p q h 0 (by omega),
      index_bind_congr assertBytes p q h 1 (by omega),
      index_bind_congr assertBytes p q h 2 (by omega)]
  have hB : parseAvtechData json (some p) = parseAvtechData json (some q) := by
    rw [parseAvtechData_eq, parseAvtechData_eq,
      index_bind_congr (fun x => Except.ok (ToBigInt x)) p q h 0 (by omega),
      index_bind_congr (fun x => Except.ok (ToBigInt x)) p q h 1 (by omega),
      index_bind_congr assertBytes p q h 2 (by omega)]
  exact ⟨hA, hB, by rw [hA], by rw [hB]⟩

/-- C9, at two samples that differ in names, type tags and a fourth variable. -/
theorem decode_deterministic_example :
    parsePfsenseSnmp encodingJson (some sampleUpDownUp)
      = parsePfsenseSnmp encodingJson (some sampleUpDownUpExtra)
    ∧ parseAvtechData encodingJson (some sampleUpDownUp)
      = parseAvtechData encodingJson (some sampleUpDownUpExtra)
    ∧ (parsePfsenseSnmp encodingJson (some sampleUpDownUp)).map publish
      = (parsePfsenseSnmp encodingJson (some sampleUpDownUpExtra)).map publish
    ∧ (parseAvtechData encodingJson (some sampleUpDownUp)).map publish
      = (parseAvtechData encodingJson (some sampleUpDownUpExtra)).map publish :=
  decode_deterministic encodingJson sampleUpDownUp sampleUpDownUpExtra (by decide)

/-! ## The worker -/

/-- The pass of the loop for a class A worker whose sample decodes. -/
theorem tick_pfSense (json : JsonLib) (oids : List String) (pkt : SnmpPacket)
    (err : Option GoError) (payload : List Nat)
    (hlog : logVariables pkt.Variables = .ok ())
    (hdec : parsePfsenseSnmp json (some pkt) = .ok payload) :
    tick json "pfSense" oids ⟨some pkt, err⟩
      = ([.get oids, .publish "test" 0 false payload, .sleep 50], none) := by
  unfold tick
  simp only [deref, bind_ok, hlog, hdec]
  rfl

/-- The pass of the loop for a class B worker whose sample decodes. -/
theorem tick_avtech (json : JsonLib) (oids : List String) (pkt : SnmpPacket)
    (err : Option GoError) (payload : List Nat)
    (hlog : logVariables pkt.Variables = .ok ())
    (hdec : parseAvtechData json (some pkt) = .ok payload) :
    tick json "avtech" oids ⟨some pkt, err⟩
      = ([.get oids, .publish "test" 0 false payload, .sleep 50], none) := by
  unfold tick
  simp only [deref, bind_ok, hlog, hdec]
  rfl

/-- C3: in a tick of `snmpWorker` in which the read succeeds and the sample
goes through the logging loop and decodes, a worker named "pfSense" or "avtech"
makes exactly one publish call, with the decoded payload of that tick, on the
topic "test" with quality of service 0 and retain false, whichever the class. -/
theorem tick_publishes_once (json : JsonLib) (env : Env) (targetName : String)
    (oids : List String) (k : Nat) (pkt : SnmpPacket) (payload : List Nat)
    (hname : targetName = "pfSense" ∨ targetName = "avtech")
    (hget : env.get k oids = ⟨some pkt, none⟩)
    (hlog : logVariables pkt.Variables = .ok ())
    (hdec : (if targetName = "pfSense" then parsePfsenseSnmp json (some pkt)
              else parseAvtechData json (some pkt)) = .ok payload) :
    workerStep json env targetName oids (.polling k)
      = (.polling (k + 1), [.get oids, .publish "test" 0 false payload, .sleep 50]) := by
  rcases hname with rfl | rfl
  · rw [if_pos rfl] at hdec
    show (match tick json "pfSense" oids (env.get k oids) with
      | (events, some p) => (Phase.stopped (.panic p), events)
      | (events, none) => (Phase.polling (k + 1), events)) = _
    rw [hget, tick_pfSense json oids pkt none payload hlog hdec]
  · rw [if_neg (by decide)] at hdec
    show (match tick json "avtech" oids (env.get k oids) with
      | (events, some p) => (Phase.stopped (.panic p), events)
      | (events, none) => (Phase.polling (k + 1), events)) = _
    rw [hget, tick_avtech json oids pkt none payload hlog hdec]

/-- C3, for a class A worker on the sample of the specification. -/
theorem tick_publishes_once_example :
    workerStep encodingJson (envAnswering ⟨some sampleUpDownUp, none⟩) "pfSense" pfsenseOids
        (.polling 0)
      = (.polling 1, [.get pfsenseOids,
          .publish "test" 0 false
            (ascii "\x7b\"Intf1\":\"up\",\"Intf2\":\"down\",\"Intf3\":\"up\"\x7d"),
          .sleep 50]) :=
  tick_publishes_once encodingJson (envAnswering ⟨some sampleUpDownUp, none⟩) "pfSense"
    pfsenseOids 0 sampleUpDownUp _ (Or.inl rfl) rfl (by decide) (by decide)

/-- C4, the code at a read that times out: the worker panics on the nil packet
in its first tick and no further read is issued, however long it is observed. -/
theorem snmpWorker_read_error_panics :
    snmpWorker encodingJson (envAnswering readTimeout) "pfSense" pfsenseOids 8
      = (.stopped (.panic .nilDereference),
          [.brokerConnect, .sessionConnect, .get pfsenseOids]) := by
  decide

/-- C5: in a tick of `snmpWorker` in which the read returns an error, with the
nil packet that gosnmp returns next to its error, neither decoder is run and
publish is not invoked: whatever `json.Marshal` and the target name are, the one
call of the tick is the `Get`, and the tick ends at the read of
`result.Variables` (main.go, line 95). -/
theorem read_error_no_publish (json : JsonLib) (env : Env) (targetName : String)
    (oids : List String) (k : Nat) (e : GoError)
    (hget : env.get k oids = ⟨none, some e⟩) :
    tick json targetName oids (env.get k oids) = ([.get oids], some .nilDereference)
    ∧ (workerStep json env targetName oids (.polling k)).2 = [.get oids]
    ∧ ∀ ev ∈ (workerStep json env targetName oids (.polling k)).2,
        ∀ (topic : String) (qos : Nat) (retained : Bool) (payload : List Nat),
          ev ≠ .publish topic qos retained payload := by
  have ht : tick json targetName oids (env.get k oids)
      = ([.get oids], some .nilDereference) := by
    rw [hget]
    rfl
  have hs : (workerStep json env targetName oids (.polling k)).2 = [.get oids] := by
    show (match tick json targetName oids (env.get k oids) with
      | (events, some p) => (Phase.stopped (.panic p), events)
      | (events, none) => (Phase.polling (k + 1), events)).2 = _
    rw [ht]
  refine ⟨ht, hs, ?_⟩
  intro ev hev topic qos retained payload heq
  rw [hs, List.mem_singleton] at hev
  rw [hev] at heq
  exact Event.noConfusion heq

/-- C5, at a read that times out in tick 0 of the class A worker. -/
theorem read_error_no_publish_example :
    tick encodingJson "pfSense" pfsenseOids
        ((envAnswering readTimeout).get 0 pfsenseOids)
      = ([.get pfsenseOids], some .nilDereference)
    ∧ (workerStep encodingJson (envAnswering readTimeout) "pfSense" pfsenseOids
        (.polling 0)).2 = [.get pfsenseOids]
    ∧ ∀ ev ∈ (workerStep encodingJson (envAnswering readTimeout) "pfSense" pfsenseOids
          (.polling 0)).2,
        ∀ (topic : String) (qos : Nat) (retained : Bool) (payload : List Nat),
          ev ≠ .publish topic qos retained payload :=
  read_error_no_publish encodingJson (envAnswering readTimeout) "pfSense" pfsenseOids 0
    ⟨"request timeout (after 3 retries)"⟩ rfl

/-- C7: if `json.Marshal` fails on the decoded record, the decoder does not
abort but returns the empty string, and the worker publishes that empty payload
in the tick. -/
theorem marshal_failure_publishes_empty (json : JsonLib) (oids : List String)
    (pkt : SnmpPacket) (err : Option GoError) :
    (∀ a b c e, valueAt pkt 0 = some (.bytes a) → valueAt pkt 1 = some (.bytes b)
        → valueAt pkt 2 = some (.bytes c) → json.marshalPfsense ⟨a, b, c⟩ = .error e
        → parsePfsenseSnmp json (some pkt) = .ok []
          ∧ (logVariables pkt.Variables = .ok ()
              → tick json "pfSense" oids ⟨some pkt, err⟩
                = ([.get oids, .publish "test" 0 false [], .sleep 50], none)))
    ∧ (∀ v0 v1 l e, valueAt pkt 0 = some v0 → valueAt pkt 1 = some v1
        → valueAt pkt 2 = some (.bytes l)
        → json.marshalAvtech ⟨ToBigInt v0, ToBigInt v1, l⟩ = .error e
        → parseAvtechData json (some pkt) = .ok []
          ∧ (logVariables pkt.Variables = .ok ()
              → tick json "avtech" oids ⟨some pkt, err⟩
                = ([.get oids, .publish "test" 0 false [], .sleep 50], none))) := by
  constructor
  · intro a b c e h0 h1 h2 hm
    have hp : parsePfsenseSnmp json (some pkt) = .ok [] := by
      rw [parsePfsenseSnmp_of_bytes json pkt a b c h0 h1 h2, hm]
      rfl
    exact ⟨hp, fun hlog => tick_pfSense json oids pkt err [] hlog hp⟩
  · intro v0 v1 l e h0 h1 h2 hm
    have hp : parseAvtechData json (some pkt) = .ok [] := by
      rw [parseAvtechData_of_values json pkt v0 v1 l h0 h1 h2, hm]
      rfl
    exact ⟨hp, fun hlog => tick_avtech json oids pkt err [] hlog hp⟩

/-- C7, with a `json.Marshal` that fails: the class A worker publishes `""`. -/
theorem marshal_failure_publishes_empty_example :
    parsePfsenseSnmp failingJson (some sampleUpDownUp) = .ok []
    ∧ tick failingJson "pfSense" pfsenseOids ⟨some sampleUpDownUp, none⟩
        = ([.get pfsenseOids, .publish "test" 0 false [], .sleep 50], none) :=
  have h := (marshal_failure_publishes_empty failingJson pfsenseOids sampleUpDownUp none).1
    (ascii "up") (ascii "down") (ascii "up") ⟨"json: error calling MarshalJSON"⟩
    (by decide) (by decide) (by decide) rfl
  ⟨h.1, h.2 (by decide)⟩

theorem workerRun_stopped (json : JsonLib) (env : Env) (targetName : String)
    (oids : List String) (how : Fatal) (n : Nat) :
    workerRun json env targetName oids n (.stopped how) = (.stopped how, []) := by
  induction n with
  | zero => rfl
  | succ n ih =>
    show ((workerRun json env targetName oids n (.stopped how)).1,
      [] ++ (workerRun json env targetName oids n (.stopped how)).2) = _
    rw [ih]
    rfl

/-- C8: if the initial `snmpObj.Connect()` returns an error, the worker ends at
once with `log.Fatalf`: whatever the length of the observation, the calls made
are the broker connect and the one session connect, with no `Get` and no
publish. -/
theorem session_connect_failure_ends_worker (json : JsonLib) (env : Env)
    (targetName : String) (oids : List String) (e : GoError) (n : Nat)
    (hbroker : env.brokerWait = false ∨ env.brokerErr = none)
    (hsession : env.sessionErr = some e) :
    snmpWorker json env targetName oids (n + 2)
      = (.stopped (.exit 1), [.brokerConnect, .sessionConnect]) := by
  have h1 : workerStep json env targetName oids .start = (.brokerUp, [.brokerConnect]) := by
    unfold workerStep
    rcases hbroker with h | h <;> rw [h]
    cases env.brokerWait <;> rfl
  have h2 : workerStep json env targetName oids .brokerUp
      = (.stopped (.exit 1), [.sessionConnect]) := by
    unfold workerStep
    rw [hsession]
  show ((workerRun json env targetName oids (n + 1)
      (workerStep json env targetName oids .start).1).1,
    (workerStep json env targetName oids .start).2
      ++ (workerRun json env targetName oids (n + 1)
        (workerStep json env targetName oids .start).1).2) = _
  rw [h1]
  show ((workerRun json env targetName oids n
      (workerStep json env targetName oids .brokerUp).1).1,
    [Event.brokerConnect] ++ ((workerStep json env targetName oids .brokerUp).2
      ++ (workerRun json env targetName oids n
        (workerStep json env targetName oids .brokerUp).1).2)) = _
  rw [h2, workerRun_stopped]
  rfl

/-- C8, for a session connect that finds no route, observed for ten steps. -/
theorem session_connect_failure_ends_worker_example :
    snmpWorker encodingJson envSessionDown "avtech" avtechOids 10
      = (.stopped (.exit 1), [.brokerConnect, .sessionConnect]) :=
  session_connect_failure_ends_worker encodingJson envSessionDown "avtech" avtechOids
    ⟨"dial udp: no route to host"⟩ 8 (Or.inr rfl) rfl

/-! ## The process -/

theorem Process.step_terminated (json : JsonLib) (envP envA : Env) (w : Worker) (p : Process)
    (h : p.terminated = true) : Process.step json envP envA w p = p := by
  unfold Process.step
  rw [if_pos h]

theorem Process.run_terminated (json : JsonLib) (envP envA : Env) (schedule : List Worker)
    (p : Process) (h : p.terminated = true) : Process.run json envP envA schedule p = p := by
  induction schedule with
  | nil => rfl
  | cons w ws ih =>
    show Process.run json envP envA ws (Process.step json envP envA w p) = p
    rw [Process.step_terminated json envP envA w p h]
    exact ih

theorem Process.run_append (json : JsonLib) (envP envA : Env) (s1 s2 : List Worker)
    (p : Process) :
    Process.run json envP envA (s1 ++ s2) p
      = Process.run json envP envA s2 (Process.run json envP envA s1 p) := by
  unfold Process.run
  rw [List.foldl_append]

/-- C10 (amended): a fatal error in one worker is not local to it. A failed
broker connect, a failed session connect and a decode failure each end the
worker that meets them (by a panic or by `log.Fatalf`), and once either worker
has ended the whole process is over: under every schedule no step of either
worker makes a call any more, so the other worker does not go on polling and
publishing. -/
theorem fatal_error_ends_process (json : JsonLib) (envP envA : Env) :
    (∀ (env : Env) (targetName : String) (oids : List String) (e : GoError),
        env.brokerWait = true → env.brokerErr = some e →
        workerStep json env targetName oids .start
          = (.stopped (.panic (.raised e)), [.brokerConnect]))
    ∧ (∀ (env : Env) (targetName : String) (oids : List String) (e : GoError),
        env.sessionErr = some e →
        workerStep json env targetName oids .brokerUp
          = (.stopped (.exit 1), [.sessionConnect]))
    ∧ (∀ (env : Env) (targetName : String) (oids : List String) (k : Nat) (p : Panic),
        (tick json targetName oids (env.get k oids)).2 = some p →
        (workerStep json env targetName oids (.polling k)).1 = .stopped (.panic p))
    ∧ (∀ before after : List Worker, (main json envP envA before).terminated = true →
        main json envP envA (before ++ after) = main json envP envA before) := by
  refine ⟨?_, ?_, ?_, ?_⟩
  · intro env targetName oids e hw he
    unfold workerStep
    rw [hw, he]
  · intro env targetName oids e he
    unfold workerStep
    rw [he]
  · intro env targetName oids k p hp
    show (match tick json targetName oids (env.get k oids) with
      | (events, some q) => (Phase.stopped (.panic q), events)
      | (events, none) => (Phase.polling (k + 1), events)).1 = _
    cases ht : tick json targetName oids (env.get k oids) with
    | mk events r =>
      rw [ht] at hp
      cases hp
      rfl
  · intro before after h
    unfold main at h ⊢
    rw [Process.run_append, Process.run_terminated json envP envA after _ h]

/-- C10 (amended), at a failed session connect of the class A worker: the four
steps scheduled after it change nothing. -/
theorem fatal_error_ends_process_example :
    main encodingJson envSessionDown (envAnswering ⟨some sampleSensorA, none⟩)
        ([.pfSense, .avtech, .avtech, .avtech, .pfSense] ++ [.avtech, .avtech, .pfSense, .avtech])
      = main encodingJson envSessionDown (envAnswering ⟨some sampleSensorA, none⟩)
        [.pfSense, .avtech, .avtech, .avtech, .pfSense] :=
  (fatal_error_ends_process encodingJson envSessionDown
    (envAnswering ⟨some sampleSensorA, none⟩)).2.2.2
    [.pfSense, .avtech, .avtech, .avtech, .pfSense] [.avtech, .avtech, .pfSense, .avtech]
    (by decide)

/-- C10 as stated fails: the class B worker has polled and published once when
the session connect of the class A worker fails; the three steps it is given
after that are not taken, and the same holds after a failed broker connect and
after a decode failure. -/
theorem other_worker_stops :
    main encodingJson envSessionDown (envAnswering ⟨some sampleSensorA, none⟩)
        [.pfSense, .avtech, .avtech, .avtech, .pfSense, .avtech, .avtech, .avtech]
      = { pfsense := .stopped (.exit 1), avtech := .polling 1,
          trace := [(.pfSense, .brokerConnect), (.avtech, .brokerConnect),
            (.avtech, .sessionConnect), (.avtech, .get avtechOids),
            (.avtech, .publish "test" 0 false
              (ascii "\x7b\"Celcius\":250,\"Fahrenheit\":770,\"Label\":\"SensorA\"\x7d")),
            (.avtech, .sleep 50), (.pfSense, .sessionConnect)] }
    ∧ main encodingJson envBrokerDown (envAnswering ⟨some sampleSensorA, none⟩)
        [.pfSense, .avtech, .avtech, .avtech]
      = { pfsense := .stopped (.panic (.raised
            ⟨"network Error : dial tcp: connection refused"⟩)),
          avtech := .start, trace := [(.pfSense, .brokerConnect)] }
    ∧ main encodingJson (envAnswering ⟨some sampleShort, none⟩)
        (envAnswering ⟨some sampleSensorA, none⟩)
        [.pfSense, .pfSense, .pfSense, .avtech, .avtech, .avtech]
      = { pfsense := .stopped (.panic (.indexOutOfRange 2 2)), avtech := .start,
          trace := [(.pfSense, .brokerConnect), (.pfSense, .sessionConnect),
            (.pfSense, .get pfsenseOids)] } := by
  decide

/-! ## Further facts -/

/-- A `Get` that returns the nil packet ends the worker in that tick, whatever
the error next to it: the read of `result.Variables` panics (main.go, line 95). -/
theorem workerStep_nil_result (json : JsonLib) (env : Env) (targetName : String)
    (oids : List String) (k : Nat) (h : (env.get k oids).result = none) :
    workerStep json env targetName oids (.polling k)
      = (.stopped (.panic .nilDereference), [.get oids]) := by
  show (match tick json targetName oids (env.get k oids) with
    | (events, some p) => (Phase.stopped (.panic p), events)
    | (events, none) => (Phase.polling (k + 1), events)) = _
  unfold tick
  rw [h]
  rfl

/-- On any three octet strings the class A payload reads back as the three
strings with every invalid byte replaced by U+FFFD. -/
theorem parsePfsenseSnmp_reads_back (pkt : SnmpPacket) (a b c : List Nat)
    (h0 : valueAt pkt 0 = some (.bytes a)) (h1 : valueAt pkt 1 = some (.bytes b))
    (h2 : valueAt pkt 2 = some (.bytes c)) :
    (parsePfsenseSnmp encodingJson (some pkt)).toOption.bind readObject
      = some [(ascii "Intf1", .str (toValidUTF8 a)), (ascii "Intf2", .str (toValidUTF8 b)),
          (ascii "Intf3", .str (toValidUTF8 c))] := by
  rw [parsePfsenseSnmp_of_bytes encodingJson pkt a b c h0 h1 h2]
  exact readObject_pfsenseJSON a b c

/-- The number `gosnmp.ToBigInt` returns lies in the range of `int64` and
`uint64` taken together. -/
theorem ToBigInt_bounds (v : Value) : -2 ^ 63 ≤ ToBigInt v ∧ ToBigInt v < 2 ^ 64 := by
  have hb := toInt64_bounds
  cases v with
  | nil => exact ⟨by decide, by decide⟩
  | bytes b => exact ⟨by show (-2 ^ 63 : Int) ≤ 0; decide, by show (0 : Int) < 2 ^ 64; decide⟩
  | other => exact ⟨by decide, by decide⟩
  | int i => exact ⟨(hb i).1, lt_trans (hb i).2 (by decide)⟩
  | int8 i => exact ⟨(hb i).1, lt_trans (hb i).2 (by decide)⟩
  | int16 i => exact ⟨(hb i).1, lt_trans (hb i).2 (by decide)⟩
  | int32 i => exact ⟨(hb i).1, lt_trans (hb i).2 (by decide)⟩
  | int64 i => exact ⟨(hb i).1, lt_trans (hb i).2 (by decide)⟩
  | uint u => exact ⟨(hb u).1, lt_trans (hb u).2 (by decide)⟩
  | uint8 u => exact ⟨(hb u).1, lt_trans (hb u).2 (by decide)⟩
  | uint16 u => exact ⟨(hb u).1, lt_trans (hb u).2 (by decide)⟩
  | uint32 u => exact ⟨(hb u).1, lt_trans (hb u).2 (by decide)⟩
  | uint64 u =>
    show -2 ^ 63 ≤ ((u % 2 ^ 64 : Nat) : Int) ∧ ((u % 2 ^ 64 : Nat) : Int) < 2 ^ 64
    have : u % 2 ^ 64 < 2 ^ 64 := Nat.mod_lt _ (by decide)
    omega
  | string s =>
    show -2 ^ 63 ≤ (parseInt s).getD 0 ∧ (parseInt s).getD 0 < 2 ^ 64
    unfold parseInt
    cases s with
    | nil => exact ⟨by decide, by decide⟩
    | cons c rest =>
      simp only
      by_cases hneg : (c == 45) = true
      · simp only [hneg, Bool.not_true, Bool.false_and, Bool.true_and, Bool.false_eq_true,
          if_false, if_true, decide_eq_true_eq]
        split_ifs <;> simp only [Option.getD_none, Option.getD_some] <;> omega
      · have hneg2 : (c == 45) = false := by simpa using hneg
        simp only [hneg2, Bool.not_false, Bool.false_and, Bool.true_and, Bool.false_eq_true,
          if_false, if_true, decide_eq_true_eq]
        split_ifs <;> simp only [Option.getD_none, Option.getD_some] <;> omega

/-- The error branch of the loop only logs: a packet handed back next to an
error is decoded and published like any other. -/
theorem tick_read_error_publishes :
    tick encodingJson "pfSense" pfsenseOids readErrorWithPacket
      = ([.get pfsenseOids,
          .publish "test" 0 false
            (ascii "\x7b\"Intf1\":\"up\",\"Intf2\":\"down\",\"Intf3\":\"up\"\x7d"),
          .sleep 50], none) := by
  decide

/-- The nil packet of a read that timed out ends a class B worker in tick 3. -/
theorem workerStep_nil_result_example :
    workerStep encodingJson (envAnswering readTimeout) "avtech" avtechOids (.polling 3)
      = (.stopped (.panic .nilDereference), [.get avtechOids]) :=
  workerStep_nil_result encodingJson (envAnswering readTimeout) "avtech" avtechOids 3 rfl

/-- The payload for the octet strings 0xFF, "down", "up" reads back with U+FFFD
for the first of them. -/
theorem parsePfsenseSnmp_reads_back_example :
    (parsePfsenseSnmp encodingJson (some sampleInvalidText)).toOption.bind readObject
      = some [(ascii "Intf1", .str [0xEF, 0xBF, 0xBD]), (ascii "Intf2", .str (ascii "down")),
          (ascii "Intf3", .str (ascii "up"))] :=
  parsePfsenseSnmp_reads_back sampleInvalidText [0xFF] (ascii "down") (ascii "up")
    (by decide) (by decide) (by decide)

end SnmpMqtt
